import Mathlib

/-!
# Signaling relay (`main.go`): shallow embedding and verified properties

The Go program keeps two package-level variables, `clients []*Client` and
`rooms map[string][]*Client`, and one `Client` record per websocket connection.
The embedding makes that store explicit:

* a `*Client` is an address (`Ptr`), the records live in `State.heap`;
* `clients` is a list of addresses, `rooms` a partial map from room name to a
  list of addresses;
* `Client.send` (a `chan []byte` of capacity 256) is the list of messages
  buffered in the channel, oldest first.  A send appends to the buffer when it
  holds fewer than 256 messages and waits otherwise.  Only the `writePump` of
  the client takes messages out; it is another goroutine, it returns at its
  first failed write and is never started again, so a handler that waits at a
  send on a full buffer may wait for ever;
* `State.sent` is a history variable: every completed channel send of the
  program, in program order, with the address of the receiving client;
* `State.logs` collects the arguments of every `log.Printf` call;
* `json.Marshal`, `json.Unmarshal` belong to `encoding/json` and are parameters
  (`marshal`, `unmarshal`) of the functions that call them;
* a failed type assertion `x.(T)` is a panic and a send on a full buffer a
  wait: the handlers return an `Outcome` that tells the three cases apart.
-/

namespace WebrtcServer

/-- The bytes of one websocket message (`[]byte`); `[]` is also the nil slice. -/
abbrev Bytes := List UInt8

/-- A value stored in an `interface{}` by `encoding/json`: nil, bool, float64
(kept as its 64-bit pattern, the program never computes with it), string,
`[]interface{}` and `map[string]interface{}` (a partial map on keys). -/
inductive JVal where
  | null
  | bool (b : Bool)
  | num (bits : Nat)
  | str (s : String)
  | arr (xs : List JVal)
  | obj (m : String → Option JVal)

/-- The Go type `map[string]interface{}`. -/
abbrev JMap := String → Option JVal

/-- A map literal `map[string]T{k1: v1, ...}` (keys of a literal are distinct). -/
def mapLit (kvs : List (String × JVal)) : JMap := fun k => kvs.lookup k

/-- The index expression `m[k]` without the comma-ok form: the zero value of
`interface{}` (nil) for an absent key. -/
def JVal.index (m : JMap) (k : String) : JVal := (m k).getD JVal.null

/-- Field access on a value, for reading an envelope: `none` when the value is
not an object or has no such key. -/
def JVal.get (v : JVal) (k : String) : Option JVal :=
  match v with
  | JVal.obj m => m k
  | _ => none

/-- The type assertion `x.(string)` on the result of a map index: `none` is the
panic (absent key, nil, or a value of another type). -/
def asString : Option JVal → Option String
  | some (JVal.str s) => some s
  | _ => none

/-- The type assertion `x.(map[string]interface{})` on the result of a map
index: `none` is the panic. -/
def asMap : Option JVal → Option JMap
  | some (JVal.obj m) => some m
  | _ => none

/-- Address of a `Client` record (`*Client`, never nil). -/
abbrev Ptr := Nat

/-- The struct `Client`: `conn` is kept as the one bit the program changes
(`conn.Close()`), `send` as the messages buffered in the channel, oldest first. -/
structure Client where
  id : String
  connClosed : Bool
  send : List Bytes
  room : String

/-- One argument of a `log.Printf` call. -/
inductive LogArg where
  | str (s : String)
  | bytes (b : Bytes)
  | err (e : String)

/-- One `log.Printf` call: the format string and its arguments. -/
structure LogLine where
  format : String
  args : List LogArg

/-- The program state: the package variables `clients` and `rooms`, the
`Client` records, the history of channel sends and the log output. -/
structure State where
  clients : List Ptr
  rooms : String → Option (List Ptr)
  heap : Ptr → Client
  sent : List (Ptr × Bytes)
  logs : List LogLine

/-- Result of running a handler, with the state reached: normal return; a run-time
panic (failed type assertion); or the handler waiting at a send on a full channel.
A waiting handler goes on only when the `writePump` of the receiving client takes
a message out of the channel, and never once that `writePump` has returned. -/
inductive Outcome where
  | ok (s : State)
  | panic (s : State)
  | blocked (s : State)

/-- Maximum message size allowed from peer. -/
def maxMessageSize : Nat := 512

/-- The statement `log.Printf(format, args...)`. -/
def logPrintf (s : State) (format : String) (args : List LogArg) : State :=
  { s with logs := s.logs ++ [LogLine.mk format args] }

/-- Capacity of the channel `send`: `make(chan []byte, 256)` in `serveWs`. -/
def sendCap : Nat := 256

/-- The statement `p.send <- message`: with fewer than `sendCap` messages in the
buffer the message is appended to it; with a full buffer the send waits (`none`). -/
def chanSend (s : State) (p : Ptr) (message : Bytes) : Option State :=
  if (s.heap p).send.length < sendCap then
    some { s with
      heap := Function.update s.heap p
        { s.heap p with send := (s.heap p).send ++ [message] }
      sent := s.sent ++ [(p, message)] }
  else none

/-- The statements
`message, err := json.Marshal(msg); if err != nil { log.Printf("Json marshal err, %v", err) }`:
the bytes (nil on error) and the state after the possible log line. -/
def jsonMarshal (marshal : JVal → Except String Bytes) (s : State) (msg : JVal) :
    Bytes × State :=
  match marshal msg with
  | Except.ok message => (message, s)
  | Except.error err => ([], logPrintf s "Json marshal err, %v" [LogArg.err err])

/-- The function `getClient`: first client of `clients` with the given id, or nil. -/
def getClient (s : State) (clientID : String) : Option Ptr :=
  s.clients.find? (fun c => (s.heap c).id == clientID)

/-- The envelope `_new_peer` built in the loop of `handleJoin`. -/
def newPeerMsg (cid : String) : JVal :=
  JVal.obj (mapLit [("eventName", JVal.str "_new_peer"),
    ("data", JVal.obj (mapLit [("socketId", JVal.str cid)]))])

/-- The envelope `_peers` built at the end of `handleJoin`. -/
def peersMsg (clientIDs : List String) (cid : String) : JVal :=
  JVal.obj (mapLit [("eventName", JVal.str "_peers"),
    ("data", JVal.obj (mapLit [("connections", JVal.arr (clientIDs.map JVal.str)),
      ("you", JVal.str cid)]))])

/-- The loop `for _, client := range curRoom { ... }` of `handleJoin`, over the
remaining members, carrying the state and `clientIDs`: the state and `clientIDs`
after the loop, or the state in which a send of the loop waits. -/
def joinLoop (marshal : JVal → Except String Bytes) (c : Ptr) :
    List Ptr → State → List String → Except State (State × List String)
  | [], s, clientIDs => Except.ok (s, clientIDs)
  | client :: rest, s, clientIDs =>
    if (s.heap c).id = (s.heap client).id then
      joinLoop marshal c rest s clientIDs
    else
      let clientIDs := clientIDs ++ [(s.heap client).id]
      let msg := newPeerMsg (s.heap c).id
      let (message, s) := jsonMarshal marshal s msg
      match chanSend s client message with
      | none => Except.error s
      | some s => joinLoop marshal c rest s clientIDs

/-- The method `(*Client).handleJoin`. -/
def handleJoin (marshal : JVal → Except String Bytes) (s : State) (c : Ptr) (data : JMap) :
    Outcome :=
  match asString (data "room") with
  | none => Outcome.panic s
  | some room =>
    let curRoom := (s.rooms room).getD []
    let loop :=
      match s.rooms room with
      | some members => joinLoop marshal c members s []
      | none => Except.ok (s, [])
    match loop with
    | Except.error s => Outcome.blocked s
    | Except.ok (s, clientIDs) =>
      let s := { s with rooms := Function.update s.rooms room (some (curRoom ++ [c])) }
      let s := { s with heap := Function.update s.heap c { s.heap c with room := room } }
      let msg := peersMsg clientIDs (s.heap c).id
      let (message, s) := jsonMarshal marshal s msg
      match chanSend s c message with
      | none => Outcome.blocked s
      | some s =>
        Outcome.ok (logPrintf s "新用户 %s 加入房间 %s"
          [LogArg.str (s.heap c).id, LogArg.str room])

/-- The envelope `_ice_candidate` built by `handleIceCandidate`. -/
def iceCandidateMsg (data : JMap) (cid : String) : JVal :=
  JVal.obj (mapLit [("eventName", JVal.str "_ice_candidate"),
    ("data", JVal.obj (mapLit [("label", JVal.index data "label"),
      ("candidate", JVal.index data "candidate"),
      ("socketId", JVal.str cid)]))])

/-- The envelope `_offer` built by `handleOffer`. -/
def offerMsg (data : JMap) (cid : String) : JVal :=
  JVal.obj (mapLit [("eventName", JVal.str "_offer"),
    ("data", JVal.obj (mapLit [("sdp", JVal.index data "sdp"),
      ("socketId", JVal.str cid)]))])

/-- The envelope `_answer` built by `handleAnswer`. -/
def answerMsg (data : JMap) (cid : String) : JVal :=
  JVal.obj (mapLit [("eventName", JVal.str "_answer"),
    ("data", JVal.obj (mapLit [("sdp", JVal.index data "sdp"),
      ("socketId", JVal.str cid)]))])

/-- The method `(*Client).handleIceCandidate`. -/
def handleIceCandidate (marshal : JVal → Except String Bytes) (s : State) (c : Ptr)
    (data : JMap) : Outcome :=
  match asString (data "socketId") with
  | none => Outcome.panic s
  | some clientID =>
    match getClient s clientID with
    | none =>
      let s := logPrintf s "Not found client in HandleIceCandidate" []
      Outcome.ok (logPrintf s "接收到来自 %s 的ICE Candidate" [LogArg.str (s.heap c).id])
    | some cp =>
      let msg := iceCandidateMsg data (s.heap c).id
      let (message, s) := jsonMarshal marshal s msg
      match chanSend s cp message with
      | none => Outcome.blocked s
      | some s => Outcome.ok (logPrintf s "接收到来自 %s 的ICE Candidate" [LogArg.str (s.heap c).id])

/-- The method `(*Client).handleOffer`. -/
def handleOffer (marshal : JVal → Except String Bytes) (s : State) (c : Ptr)
    (data : JMap) : Outcome :=
  match asString (data "socketId") with
  | none => Outcome.panic s
  | some clientID =>
    match getClient s clientID with
    | none =>
      let s := logPrintf s "Not found client in HandleOffer" []
      Outcome.ok (logPrintf s "接收到来自 %s 的Offer" [LogArg.str (s.heap c).id])
    | some cp =>
      let msg := offerMsg data (s.heap c).id
      let (message, s) := jsonMarshal marshal s msg
      match chanSend s cp message with
      | none => Outcome.blocked s
      | some s => Outcome.ok (logPrintf s "接收到来自 %s 的Offer" [LogArg.str (s.heap c).id])

/-- The method `(*Client).handleAnswer`. -/
def handleAnswer (marshal : JVal → Except String Bytes) (s : State) (c : Ptr)
    (data : JMap) : Outcome :=
  match asString (data "socketId") with
  | none => Outcome.panic s
  | some clientID =>
    match getClient s clientID with
    | none =>
      let s := logPrintf s "Not found client in HandleAnswer" []
      Outcome.ok (logPrintf s "接收到来自 %s 的Answer" [LogArg.str (s.heap c).id])
    | some cp =>
      let msg := answerMsg data (s.heap c).id
      let (message, s) := jsonMarshal marshal s msg
      match chanSend s cp message with
      | none => Outcome.blocked s
      | some s => Outcome.ok (logPrintf s "接收到来自 %s 的Answer" [LogArg.str (s.heap c).id])

/-- The method `(*Client).HandleEvent`: a switch without default. -/
def HandleEvent (marshal : JVal → Except String Bytes) (s : State) (c : Ptr)
    (eventName : String) (data : JMap) : Outcome :=
  if eventName = "__join" then handleJoin marshal s c data
  else if eventName = "__ice_candidate" then handleIceCandidate marshal s c data
  else if eventName = "__offer" then handleOffer marshal s c data
  else if eventName = "__answer" then handleAnswer marshal s c data
  else Outcome.ok s

/-- What `c.conn.ReadMessage()` returns: a message, or an error together with the
value of `websocket.IsUnexpectedCloseError(err, CloseGoingAway, CloseAbnormalClosure)`. -/
inductive ReadResult where
  | message (message : Bytes)
  | error (err : String) (unexpectedClose : Bool)

/-- Result of running `readPump` on the reads available so far: blocked in
`ReadMessage` (`waiting`), returned after a read error, stopped by a panic, or
waiting inside a handler at a send on a full channel (`blocked`). -/
inductive PumpOutcome where
  | waiting (s : State)
  | returned (s : State)
  | panic (s : State)
  | blocked (s : State)

/-- The call `c.conn.Close()`. -/
def connClose (s : State) (c : Ptr) : State :=
  { s with heap := Function.update s.heap c { s.heap c with connClosed := true } }

/-- The body of the loop of `readPump` after a successful read.  `unmarshal`
gives the value of `msg` after `json.Unmarshal(message, &msg)` (whose error is
discarded): `none` is the nil map. -/
def readPumpBody (marshal : JVal → Except String Bytes) (unmarshal : Bytes → Option JMap)
    (s : State) (c : Ptr) (message : Bytes) : Outcome :=
  let msg := unmarshal message
  match msg.bind (fun m => m "eventName") with
  | some eventName =>
    match asString (some eventName) with
    | none => Outcome.panic s
    | some name =>
      match asMap (msg.bind (fun m => m "data")) with
      | none => Outcome.panic s
      | some data => HandleEvent marshal s c name data
  | none =>
    Outcome.ok (logPrintf s "接收到来自%s的新消息：%s"
      [LogArg.str (s.heap c).id, LogArg.bytes message])

/-- The method `(*Client).readPump`, run on the successive results of
`ReadMessage`; the deferred `c.conn.Close()` runs on return and on panic. -/
def readPump (marshal : JVal → Except String Bytes) (unmarshal : Bytes → Option JMap)
    (c : Ptr) : List ReadResult → State → PumpOutcome
  | [], s => PumpOutcome.waiting s
  | ReadResult.error err unexpectedClose :: _, s =>
    let s := if unexpectedClose then logPrintf s "error: %v" [LogArg.err err] else s
    PumpOutcome.returned (connClose s c)
  | ReadResult.message message :: rest, s =>
    match readPumpBody marshal unmarshal s c message with
    | Outcome.ok s => readPump marshal unmarshal c rest s
    | Outcome.panic s => PumpOutcome.panic (connClose s c)
    | Outcome.blocked s => PumpOutcome.blocked s

/-- The function `serveWs` after a successful upgrade: `client` is the address of
the new record, an address not in use, and `id` the string of `uuid.NewV4()`, an
id no client has yet; the record is appended to `clients` (the two pumps are
started as goroutines). -/
def serveWs (s : State) (client : Ptr) (id : String) : State :=
  let s := { s with heap := Function.update s.heap client (Client.mk id false [] "") }
  let s := { s with clients := s.clients ++ [client] }
  logPrintf s "创建新连接" []

/-- The state set up by `main`: `clients` and `rooms` empty, over a store `heap`. -/
def main (heap : Ptr → Client) : State :=
  State.mk [] (fun _ => none) heap [] []

/-- One call `c.HandleEvent(eventName, data)`. -/
structure Event where
  client : Ptr
  eventName : String
  data : JMap

/-- A sequence of router events handled one after the other; a panic stops it, and
so does a handler that waits at a send. -/
def run (marshal : JVal → Except String Bytes) : List Event → State → Outcome
  | [], s => Outcome.ok s
  | e :: es, s =>
    match HandleEvent marshal s e.client e.eventName e.data with
    | Outcome.ok s => run marshal es s
    | Outcome.panic s => Outcome.panic s
    | Outcome.blocked s => Outcome.blocked s

/-- The event `__join {room: room}` received from client `c`. -/
def joinEvent (room : String) (c : Ptr) : Event :=
  Event.mk c "__join" (mapLit [("room", JVal.str room)])

/-- The bytes `json.Marshal` yields for `msg` as the handlers use them: the nil
slice when it returns an error. -/
def encode (marshal : JVal → Except String Bytes) (msg : JVal) : Bytes :=
  match marshal msg with
  | Except.ok message => message
  | Except.error _ => []

/-- The members of a room: the empty list when the room has no entry. -/
def members (s : State) (room : String) : List Ptr := (s.rooms room).getD []

/-- An envelope `{"eventName": name, "data": {fields...}}` with exactly these
two keys and exactly the listed data fields. -/
def IsEnvelope (env : JVal) (name : String) (fields : List (String × JVal)) : Prop :=
  ∃ top d, env = JVal.obj top ∧ top "eventName" = some (JVal.str name) ∧
    top "data" = some (JVal.obj d) ∧
    (∀ k, k ≠ "eventName" → k ≠ "data" → top k = none) ∧
    (∀ kv ∈ fields, d kv.1 = some kv.2) ∧
    (∀ k, k ∉ fields.map Prod.fst → d k = none)

/-- The members a join by `c` notifies: the entries whose id differs from the id of `c`. -/
def notified (s : State) (c : Ptr) (l : List Ptr) : List Ptr :=
  l.filter (fun p => decide ((s.heap c).id ≠ (s.heap p).id))

/-- The common shape of `handleIceCandidate`, `handleOffer` and `handleAnswer`,
which differ in the envelope built (`msg`) and in the text of the two log lines
(`notFound`, `received`); used to reason about the three at once. -/
def forward (marshal : JVal → Except String Bytes) (msg : JVal) (notFound received : String)
    (s : State) (c : Ptr) (data : JMap) : Outcome :=
  match asString (data "socketId") with
  | none => Outcome.panic s
  | some clientID =>
    match getClient s clientID with
    | none =>
      let s := logPrintf s notFound []
      Outcome.ok (logPrintf s received [LogArg.str (s.heap c).id])
    | some cp =>
      let (message, s) := jsonMarshal marshal s msg
      match chanSend s cp message with
      | none => Outcome.blocked s
      | some s => Outcome.ok (logPrintf s received [LogArg.str (s.heap c).id])

/-- The envelope a forwarding event produces for a sender with id `cid`; `JVal.null`
for the other event names, which forward nothing. -/
def forwardMsg (eventName : String) (data : JMap) (cid : String) : JVal :=
  if eventName = "__ice_candidate" then iceCandidateMsg data cid
  else if eventName = "__offer" then offerMsg data cid
  else if eventName = "__answer" then answerMsg data cid
  else JVal.null

/-- The three forwarding event names. -/
def IsForwardEvent (eventName : String) : Prop :=
  eventName = "__ice_candidate" ∨ eventName = "__offer" ∨ eventName = "__answer"

/-- The state an outcome carries: the state returned, the state at the panic, or
the state in which the handler waits. -/
def Outcome.state : Outcome → State
  | Outcome.ok s => s
  | Outcome.panic s => s
  | Outcome.blocked s => s

/-- The room an event joins: the string `data["room"]` of a `__join`, `none` for any
other event and for a `__join` whose `room` is not a string. -/
def joinRoom (e : Event) : Option String :=
  if e.eventName = "__join" then asString (e.data "room") else none

/-- The clients that sent a `__join` for `room` in a sequence of events, in order. -/
def joiners (evs : List Event) (room : String) : List Ptr :=
  (evs.filter (fun e => decide (joinRoom e = some room))).map Event.client

/-- The room of the most recent `__join` of client `c` in a sequence of events. -/
def lastJoin : List Event → Ptr → Option String
  | [], _ => none
  | e :: es, c =>
    match lastJoin es c with
    | some room => some room
    | none => if e.client = c then joinRoom e else none

/-- A message of 513 bytes: the text of `__join` for room `r1` (43 bytes),
`eventName` first, then `data` with its one key `room`, followed by 470 spaces. -/
def oversizedJoin : Bytes :=
  [123, 34, 101, 118, 101, 110, 116, 78, 97, 109, 101, 34, 58, 34, 95, 95, 106, 111, 105, 110,
    34, 44, 34, 100, 97, 116, 97, 34, 58, 123, 34, 114, 111, 111, 109, 34, 58, 34, 114, 49, 34,
    125, 125] ++ List.replicate 470 32

/-- The map `json.Unmarshal` decodes `oversizedJoin` into. -/
def decodedJoin : JMap :=
  mapLit [("eventName", JVal.str "__join"),
    ("data", JVal.obj (mapLit [("room", JVal.str "r1")]))]

/-- The state a run of `joinLoop` ends in: after the loop, or where a send waits. -/
def loopState : Except State (State × List String) → State
  | Except.ok (s, _) => s
  | Except.error s => s

/-- The number of messages a `__join` of `c` for `room` sends to client `q` when no
send waits: one `_new_peer` per notified entry of `q`, and the `_peers` when `q` is
`c`. -/
def joinSends (s : State) (c : Ptr) (room : String) (q : Ptr) : Nat :=
  (notified s c (members s room)).count q + (if q = c then 1 else 0)

/-- The recipients of the loop of a join have room: each notified client can take
one message per entry it has among the notified. -/
def LoopHasRoom (s : State) (c : Ptr) (l : List Ptr) : Prop :=
  ∀ q, q ∈ notified s c l →
    (s.heap q).send.length + (notified s c l).count q ≤ sendCap

/-- Every client a `__join` of `c` for `room` sends to can take what it is sent: its
queue holds at most `sendCap` messages after them. -/
def JoinHasRoom (s : State) (c : Ptr) (room : String) : Prop :=
  ∀ q, 0 < joinSends s c room q →
    (s.heap q).send.length + joinSends s c room q ≤ sendCap

/-- Every send the handler of event `eventName` with `data` performs for `c` finds
room: the sends of a join to the room named by `data`, and for a forwarding event
the send to the looked-up target. -/
def EventHasRoom (s : State) (c : Ptr) (eventName : String) (data : JMap) : Prop :=
  (eventName = "__join" → ∀ r, data "room" = some (JVal.str r) → JoinHasRoom s c r) ∧
  (IsForwardEvent eventName → ∀ t cp, data "socketId" = some (JVal.str t) →
    getClient s t = some cp → (s.heap cp).send.length < sendCap)

/-- The 56 bytes `json.Marshal` writes for the `_offer` envelope with `sdp` `X` and
`socketId` `1`: an object with the keys `data` (an object with the keys `sdp` and
`socketId`) and `eventName`, each object with its keys in sorted order. -/
def queuedOffer : Bytes :=
  [123, 34, 100, 97, 116, 97, 34, 58, 123, 34, 115, 100, 112, 34, 58, 34, 88, 34, 44, 34, 115,
    111, 99, 107, 101, 116, 73, 100, 34, 58, 34, 49, 34, 125, 44, 34, 101, 118, 101, 110, 116,
    78, 97, 109, 101, 34, 58, 34, 95, 111, 102, 102, 101, 114, 34, 125]

/-- A state with a stalled client. Clients 0, 1 and 2 are registered with ids `0`,
`1`, `2`; clients 2 and 0 have joined room `r1`, in this order. The connection of
client 0 is closed and its `writePump` has returned; since then client 1 has sent
`__offer` with `socketId` `0` and `sdp` `X` 256 times, and the 256 `_offer` messages
are in the channel of client 0. The queues of clients 1 and 2 are empty. -/
def stalled : State :=
  State.mk [0, 1, 2] (fun r => if r = "r1" then some [2, 0] else none)
    (fun p => if p = 0 then Client.mk "0" true (List.replicate 256 queuedOffer) "r1"
      else Client.mk (toString p) false [] (if p = 2 then "r1" else ""))
    [] []

/-! ## Basic facts about the primitive statements -/

theorem jsonMarshal_fst (marshal : JVal → Except String Bytes) (s : State) (msg : JVal) :
    (jsonMarshal marshal s msg).1 = encode marshal msg := by
  unfold jsonMarshal encode
  cases marshal msg <;> rfl

theorem jsonMarshal_snd (marshal : JVal → Except String Bytes) (s : State) (msg : JVal) :
    (jsonMarshal marshal s msg).2.clients = s.clients ∧
    (jsonMarshal marshal s msg).2.rooms = s.rooms ∧
    (jsonMarshal marshal s msg).2.heap = s.heap ∧
    (jsonMarshal marshal s msg).2.sent = s.sent := by
  unfold jsonMarshal
  cases marshal msg <;> simp [logPrintf]

@[simp] theorem logPrintf_clients (s : State) (f : String) (a : List LogArg) :
    (logPrintf s f a).clients = s.clients := rfl

@[simp] theorem logPrintf_rooms (s : State) (f : String) (a : List LogArg) :
    (logPrintf s f a).rooms = s.rooms := rfl

@[simp] theorem logPrintf_heap (s : State) (f : String) (a : List LogArg) :
    (logPrintf s f a).heap = s.heap := rfl

@[simp] theorem logPrintf_sent (s : State) (f : String) (a : List LogArg) :
    (logPrintf s f a).sent = s.sent := rfl

@[simp] theorem jsonMarshal_clients (marshal : JVal → Except String Bytes) (s : State)
    (msg : JVal) : (jsonMarshal marshal s msg).2.clients = s.clients :=
  (jsonMarshal_snd marshal s msg).1

@[simp] theorem jsonMarshal_rooms (marshal : JVal → Except String Bytes) (s : State)
    (msg : JVal) : (jsonMarshal marshal s msg).2.rooms = s.rooms :=
  (jsonMarshal_snd marshal s msg).2.1

@[simp] theorem jsonMarshal_heap (marshal : JVal → Except String Bytes) (s : State)
    (msg : JVal) : (jsonMarshal marshal s msg).2.heap = s.heap :=
  (jsonMarshal_snd marshal s msg).2.2.1

@[simp] theorem jsonMarshal_sent (marshal : JVal → Except String Bytes) (s : State)
    (msg : JVal) : (jsonMarshal marshal s msg).2.sent = s.sent :=
  (jsonMarshal_snd marshal s msg).2.2.2

/-- A send on a channel with room: what the state after it is, field by field. -/
theorem chanSend_eq_some (s s' : State) (p : Ptr) (b : Bytes) (h : chanSend s p b = some s') :
    (s.heap p).send.length < sendCap ∧
    s'.clients = s.clients ∧ s'.rooms = s.rooms ∧ s'.logs = s.logs ∧
    s'.sent = s.sent ++ [(p, b)] ∧
    ∀ q, s'.heap q =
      if q = p then Client.mk (s.heap p).id (s.heap p).connClosed ((s.heap p).send ++ [b])
        (s.heap p).room
      else s.heap q := by
  unfold chanSend at h
  by_cases hlen : (s.heap p).send.length < sendCap
  · rw [if_pos hlen] at h
    have hs := Option.some.inj h
    subst hs
    refine ⟨hlen, rfl, rfl, rfl, rfl, ?_⟩
    intro q
    simp [Function.update_apply]
  · rw [if_neg hlen] at h
    cases h

theorem chanSend_isSome (s : State) (p : Ptr) (b : Bytes)
    (h : (s.heap p).send.length < sendCap) : ∃ s', chanSend s p b = some s' := by
  unfold chanSend
  rw [if_pos h]
  exact ⟨_, rfl⟩

theorem chanSend_eq_none (s : State) (p : Ptr) (b : Bytes)
    (h : ¬ (s.heap p).send.length < sendCap) : chanSend s p b = none := by
  unfold chanSend
  rw [if_neg h]


/-! ## The loop of `handleJoin` -/

theorem joinLoop_skip (marshal : JVal → Except String Bytes) (c client : Ptr)
    (rest : List Ptr) (s : State) (ids : List String)
    (hid : (s.heap c).id = (s.heap client).id) :
    joinLoop marshal c (client :: rest) s ids = joinLoop marshal c rest s ids := by
  rw [joinLoop, if_pos hid]

theorem joinLoop_send (marshal : JVal → Except String Bytes) (c client : Ptr)
    (rest : List Ptr) (s : State) (ids : List String)
    (hid : ¬ (s.heap c).id = (s.heap client).id) :
    joinLoop marshal c (client :: rest) s ids =
      match chanSend (jsonMarshal marshal s (newPeerMsg (s.heap c).id)).2 client
          (jsonMarshal marshal s (newPeerMsg (s.heap c).id)).1 with
      | none => Except.error (jsonMarshal marshal s (newPeerMsg (s.heap c).id)).2
      | some s2 => joinLoop marshal c rest s2 (ids ++ [(s.heap client).id]) := by
  rw [joinLoop, if_neg hid]

theorem notified_cons_skip (s : State) (c client : Ptr) (rest : List Ptr)
    (hid : (s.heap c).id = (s.heap client).id) :
    notified s c (client :: rest) = notified s c rest := by
  simp [notified, hid]

theorem notified_cons_send (s : State) (c client : Ptr) (rest : List Ptr)
    (hid : ¬ (s.heap c).id = (s.heap client).id) :
    notified s c (client :: rest) = client :: notified s c rest := by
  simp [notified, hid]

theorem notified_congr (s s2 : State) (c : Ptr) (l : List Ptr)
    (h : ∀ q, (s2.heap q).id = (s.heap q).id) : notified s2 c l = notified s c l := by
  simp only [notified, h]

/-- The loop of a join, finished or waiting at a send: the sends done are an initial
part of the notified entries, in order; `clients` and rooms are unchanged; a record
changes only by the `_new_peer` messages appended to its queue. When the loop
finishes, every notified entry was sent to and `clientIDs` holds their ids. -/
theorem joinLoop_spec (marshal : JVal → Except String Bytes) (c : Ptr) :
    ∀ (l : List Ptr) (s : State) (ids : List String),
      ∃ done, done <+: notified s c l ∧
        (loopState (joinLoop marshal c l s ids)).sent
          = s.sent ++ done.map (fun p => (p, encode marshal (newPeerMsg (s.heap c).id))) ∧
        (loopState (joinLoop marshal c l s ids)).clients = s.clients ∧
        (loopState (joinLoop marshal c l s ids)).rooms = s.rooms ∧
        (∀ q, (loopState (joinLoop marshal c l s ids)).heap q
          = Client.mk (s.heap q).id (s.heap q).connClosed
              ((s.heap q).send ++ List.replicate (done.count q)
                (encode marshal (newPeerMsg (s.heap c).id))) (s.heap q).room) ∧
        (∀ s' ids', joinLoop marshal c l s ids = Except.ok (s', ids') →
          done = notified s c l ∧
          ids' = ids ++ (notified s c l).map (fun p => (s.heap p).id)) ∧
        (∀ s', joinLoop marshal c l s ids = Except.error s' →
          done.length < (notified s c l).length ∧
          ∃ next, done ++ [next] <+: notified s c l ∧
            ¬ (s.heap next).send.length + done.count next < sendCap) := by
  intro l
  induction l with
  | nil =>
    intro s ids
    refine ⟨[], List.nil_prefix, ?_, rfl, rfl, ?_, ?_, ?_⟩
    · simp [joinLoop, loopState]
    · intro q; simp [joinLoop, loopState]
    · intro s' ids' h
      simp only [joinLoop] at h
      injection h with h
      injection h with h1 h2
      simp [notified, h2]
    · intro s' h
      simp only [joinLoop] at h
      cases h
  | cons client rest ih =>
    intro s ids
    by_cases hid : (s.heap c).id = (s.heap client).id
    · rw [joinLoop_skip marshal c client rest s ids hid, notified_cons_skip s c client rest hid]
      exact ih s ids
    · rw [joinLoop_send marshal c client rest s ids hid,
        notified_cons_send s c client rest hid]
      have hm1 := jsonMarshal_fst marshal s (newPeerMsg (s.heap c).id)
      obtain ⟨m1, m2, m3, m4⟩ := jsonMarshal_snd marshal s (newPeerMsg (s.heap c).id)
      generalize (jsonMarshal marshal s (newPeerMsg (s.heap c).id)).2 = s1 at m1 m2 m3 m4 ⊢
      generalize (jsonMarshal marshal s (newPeerMsg (s.heap c).id)).1 = b at hm1 ⊢
      subst hm1
      cases hsend : chanSend s1 client (encode marshal (newPeerMsg (s.heap c).id)) with
      | none =>
        refine ⟨[], List.nil_prefix, ?_, ?_, ?_, ?_, ?_, ?_⟩
        · simp [loopState, m4]
        · simp [loopState, m1]
        · simp [loopState, m2]
        · intro q; simp [loopState, m3]
        · intro s' ids' h
          cases h
        · intro s' _
          refine ⟨by simp, client, ?_, ?_⟩
          · simp
          · intro hlt
            simp only [List.count_nil, Nat.add_zero] at hlt
            rw [← m3] at hlt
            obtain ⟨s2, h2⟩ := chanSend_isSome s1 client _ hlt
            rw [h2] at hsend
            cases hsend
      | some s2 =>
        obtain ⟨_, c1, c2, _, c4, c5⟩ := chanSend_eq_some s1 s2 client _ hsend
        have hids : ∀ q, (s2.heap q).id = (s.heap q).id := by
          intro q
          rw [c5 q, m3]
          by_cases hq : q = client
          · subst hq; simp
          · simp [hq]
        have hn2 : notified s2 c rest = notified s c rest := notified_congr s s2 c rest hids
        obtain ⟨done, d1, d2, d3, d4, d5, d6, d7⟩ := ih s2 (ids ++ [(s.heap client).id])
        rw [hn2] at d1 d6 d7
        simp only at d2 d3 d4 d5 d6 d7 ⊢
        refine ⟨client :: done, ?_, ?_, ?_, ?_, ?_, ?_, ?_⟩
        · exact List.cons_prefix_cons.mpr ⟨rfl, d1⟩
        · rw [d2, c4, m4, hids c]
          simp
        · rw [d3, c1, m1]
        · rw [d4, c2, m2]
        · intro q
          rw [d5 q, hids q, hids c, c5 q, m3]
          by_cases hq : q = client
          · subst hq
            simp [List.replicate_succ, List.count_cons_self]
          · simp [hq, List.count_cons_of_ne (Ne.symm hq)]
        · intro s' ids' h
          obtain ⟨e1, e2⟩ := d6 s' ids' h
          refine ⟨by rw [e1], ?_⟩
          rw [e2]
          simp [hids]
        · intro s' h
          obtain ⟨hlt, next, hn1, hn2⟩ := d7 s' h
          refine ⟨by simp only [List.length_cons]; omega, next, ?_, ?_⟩
          · rw [List.cons_append]
            exact List.cons_prefix_cons.mpr ⟨rfl, hn1⟩
          · rw [c5 next, m3] at hn2
            by_cases hq : next = client
            · subst hq
              simp only [if_true, List.length_append, List.length_singleton,
                List.count_cons_self] at hn2 ⊢
              omega
            · simp only [if_neg hq] at hn2
              rw [List.count_cons_of_ne hq]
              exact hn2

/-- The loop of a join finishes exactly when its recipients have room. -/
theorem joinLoop_ok_iff (marshal : JVal → Except String Bytes) (c : Ptr) :
    ∀ (l : List Ptr) (s : State) (ids : List String),
      (∃ r, joinLoop marshal c l s ids = Except.ok r) ↔ LoopHasRoom s c l := by
  intro l
  induction l with
  | nil =>
    intro s ids
    constructor
    · intro _ q hq
      simp [notified] at hq
    · intro _
      exact ⟨_, rfl⟩
  | cons client rest ih =>
    intro s ids
    by_cases hid : (s.heap c).id = (s.heap client).id
    · rw [joinLoop_skip marshal c client rest s ids hid]
      unfold LoopHasRoom
      rw [notified_cons_skip s c client rest hid]
      exact ih s ids
    · rw [joinLoop_send marshal c client rest s ids hid]
      unfold LoopHasRoom
      rw [notified_cons_send s c client rest hid]
      obtain ⟨m1, m2, m3, m4⟩ := jsonMarshal_snd marshal s (newPeerMsg (s.heap c).id)
      generalize (jsonMarshal marshal s (newPeerMsg (s.heap c).id)).2 = s1 at m1 m2 m3 m4 ⊢
      generalize (jsonMarshal marshal s (newPeerMsg (s.heap c).id)).1 = b
      cases hsend : chanSend s1 client b with
      | none =>
        have hfull : ¬ (s.heap client).send.length < sendCap := by
          intro hlt
          rw [← m3] at hlt
          obtain ⟨s2, h2⟩ := chanSend_isSome s1 client b hlt
          rw [h2] at hsend
          cases hsend
        constructor
        · rintro ⟨r, hr⟩
          cases hr
        · intro h
          have := h client (List.mem_cons_self _ _)
          rw [List.count_cons_self] at this
          exact absurd (by omega) hfull
      | some s2 =>
        obtain ⟨c0, _, _, _, _, c5⟩ := chanSend_eq_some s1 s2 client b hsend
        rw [m3] at c0
        have hids : ∀ q, (s2.heap q).id = (s.heap q).id := by
          intro q
          rw [c5 q, m3]
          by_cases hq : q = client
          · subst hq; simp
          · simp [hq]
        have hlen : ∀ q, (s2.heap q).send.length
            = (s.heap q).send.length + (if q = client then 1 else 0) := by
          intro q
          rw [c5 q, m3]
          by_cases hq : q = client
          · subst hq; simp
          · simp [hq]
        have hn2 : notified s2 c rest = notified s c rest := notified_congr s s2 c rest hids
        have ih2 := ih s2 (ids ++ [(s.heap client).id])
        unfold LoopHasRoom at ih2
        rw [hn2] at ih2
        simp only
        rw [ih2]
        constructor
        · intro h q hq
          by_cases hqc : q = client
          · subst hqc
            rw [List.count_cons_self]
            by_cases hmem : q ∈ notified s c rest
            · have := h q hmem
              rw [hlen q] at this
              simp only [if_true] at this
              omega
            · rw [List.count_eq_zero_of_not_mem hmem]
              omega
          · have hmem : q ∈ notified s c rest := by
              rcases List.mem_cons.mp hq with h1 | h1
              · exact absurd h1 hqc
              · exact h1
            have := h q hmem
            rw [hlen q, if_neg hqc] at this
            rw [List.count_cons_of_ne hqc]
            omega
        · intro h q hq
          have := h q (List.mem_cons_of_mem _ hq)
          rw [hlen q]
          by_cases hqc : q = client
          · subst hqc
            rw [List.count_cons_self] at this
            simp only [if_true]
            omega
          · rw [List.count_cons_of_ne hqc] at this
            rw [if_neg hqc]
            omega


/-! ## `handleJoin` -/

/-- The three ways `handleJoin` ends on `{room: r}`: waiting at a `_new_peer` send
of the loop (rooms and room fields untouched); waiting at the `_peers` send (the
loop done, `c` appended to the room and its room field set); or returning, with
every message sent. It returns exactly when every recipient has room. -/
theorem handleJoin_cases (marshal : JVal → Except String Bytes) (s : State) (c : Ptr)
    (data : JMap) (r : String) (hr : data "room" = some (JVal.str r)) :
    (∃ s1 done, handleJoin marshal s c data = Outcome.blocked s1 ∧
      ¬ LoopHasRoom s c (members s r) ∧
      done <+: notified s c (members s r) ∧ done ≠ notified s c (members s r) ∧
      (∃ next, done ++ [next] <+: notified s c (members s r) ∧
        ¬ (s.heap next).send.length + done.count next < sendCap) ∧
      s1.clients = s.clients ∧ s1.rooms = s.rooms ∧
      s1.sent = s.sent ++ done.map (fun p => (p, encode marshal (newPeerMsg (s.heap c).id))) ∧
      ∀ q, s1.heap q = Client.mk (s.heap q).id (s.heap q).connClosed
        ((s.heap q).send ++ List.replicate (done.count q)
          (encode marshal (newPeerMsg (s.heap c).id))) (s.heap q).room) ∨
    (∃ s1, handleJoin marshal s c data = Outcome.blocked s1 ∧
      LoopHasRoom s c (members s r) ∧ ¬ (s.heap c).send.length < sendCap ∧
      s1.clients = s.clients ∧
      s1.rooms = Function.update s.rooms r (some (members s r ++ [c])) ∧
      s1.sent = s.sent ++ (notified s c (members s r)).map
        (fun p => (p, encode marshal (newPeerMsg (s.heap c).id))) ∧
      ∀ q, s1.heap q = Client.mk (s.heap q).id (s.heap q).connClosed
        ((s.heap q).send ++ List.replicate ((notified s c (members s r)).count q)
          (encode marshal (newPeerMsg (s.heap c).id)))
        (if q = c then r else (s.heap q).room)) ∨
    (∃ s', handleJoin marshal s c data = Outcome.ok s' ∧
      LoopHasRoom s c (members s r) ∧ (s.heap c).send.length < sendCap ∧
      s'.clients = s.clients ∧
      s'.rooms = Function.update s.rooms r (some (members s r ++ [c])) ∧
      s'.sent = s.sent
        ++ (notified s c (members s r)).map
            (fun p => (p, encode marshal (newPeerMsg (s.heap c).id)))
        ++ [(c, encode marshal
            (peersMsg ((notified s c (members s r)).map (fun p => (s.heap p).id))
              (s.heap c).id))] ∧
      ∀ q, s'.heap q = Client.mk (s.heap q).id (s.heap q).connClosed
        ((s.heap q).send
          ++ List.replicate ((notified s c (members s r)).count q)
              (encode marshal (newPeerMsg (s.heap c).id))
          ++ (if q = c then [encode marshal
            (peersMsg ((notified s c (members s r)).map (fun p => (s.heap p).id))
              (s.heap c).id)] else []))
        (if q = c then r else (s.heap q).room)) := by
  obtain ⟨done, d1, d2, d3, d4, d5, d6, d7⟩ := joinLoop_spec marshal c (members s r) s []
  have hiff := joinLoop_ok_iff marshal c (members s r) s []
  have hloop : (match s.rooms r with
      | some m => joinLoop marshal c m s []
      | none => Except.ok (s, [])) = joinLoop marshal c (members s r) s [] := by
    cases h : s.rooms r <;> simp [members, h, joinLoop]
  have hc : (notified s c (members s r)).count c = 0 := by
    apply List.count_eq_zero_of_not_mem
    simp [notified]
  unfold handleJoin
  simp only [hr, asString]
  rw [hloop]
  cases hL : joinLoop marshal c (members s r) s [] with
  | error s1 =>
    rw [hL] at d2 d3 d4 d5 hiff
    simp only [loopState] at d2 d3 d4 d5
    left
    refine ⟨s1, done, rfl, ?_, d1, ?_, (d7 s1 hL).2, d3, d4, d2, d5⟩
    · intro hroom
      obtain ⟨r', hr'⟩ := hiff.mpr hroom
      cases hr'
    · intro hdone
      have := (d7 s1 hL).1
      rw [hdone] at this
      omega
  | ok res =>
    obtain ⟨s1, ids1⟩ := res
    rw [hL] at d2 d3 d4 d5
    simp only [loopState] at d2 d3 d4 d5
    obtain ⟨e1, e2⟩ := d6 s1 ids1 hL
    subst e1
    simp only [List.nil_append] at e2
    subst e2
    have hroom : LoopHasRoom s c (members s r) := hiff.mp ⟨_, hL⟩
    simp only [Function.update_same]
    generalize hP : (State.mk s1.clients
      (Function.update s1.rooms r (some ((s.rooms r).getD [] ++ [c])))
      (Function.update s1.heap c
        (Client.mk (s1.heap c).id (s1.heap c).connClosed (s1.heap c).send r))
      s1.sent s1.logs) = P
    have hidc : (s1.heap c).id = (s.heap c).id := by rw [d5 c]
    rw [hidc]
    have p1 : P.clients = s.clients := by rw [← hP]; exact d3
    have p2 : P.rooms = Function.update s.rooms r (some (members s r ++ [c])) := by
      rw [← hP]
      show Function.update s1.rooms r _ = _
      rw [d4]
      rfl
    have p3 : P.sent = s.sent ++ (notified s c (members s r)).map
        (fun p => (p, encode marshal (newPeerMsg (s.heap c).id))) := by
      rw [← hP]; exact d2
    have p4 : ∀ q, P.heap q = Client.mk (s.heap q).id (s.heap q).connClosed
        ((s.heap q).send ++ List.replicate ((notified s c (members s r)).count q)
          (encode marshal (newPeerMsg (s.heap c).id)))
        (if q = c then r else (s.heap q).room) := by
      intro q
      rw [← hP]
      show Function.update s1.heap c _ q = _
      by_cases hq : q = c
      · subst hq
        simp [d5]
      · simp [Function.update_noteq hq, d5, hq]
    obtain ⟨m1, m2, m3, m4⟩ := jsonMarshal_snd marshal P
      (peersMsg ((notified s c (members s r)).map (fun p => (s.heap p).id)) (s.heap c).id)
    have hb := jsonMarshal_fst marshal P
      (peersMsg ((notified s c (members s r)).map (fun p => (s.heap p).id)) (s.heap c).id)
    generalize (jsonMarshal marshal P
      (peersMsg ((notified s c (members s r)).map (fun p => (s.heap p).id))
        (s.heap c).id)).2 = sX at m1 m2 m3 m4 ⊢
    generalize (jsonMarshal marshal P
      (peersMsg ((notified s c (members s r)).map (fun p => (s.heap p).id))
        (s.heap c).id)).1 = b at hb ⊢
    subst hb
    have hlenc : (sX.heap c).send.length = (s.heap c).send.length := by
      rw [m3, p4 c, hc]
      simp
    cases hsend : chanSend sX c (encode marshal
        (peersMsg ((notified s c (members s r)).map (fun p => (s.heap p).id))
          (s.heap c).id)) with
    | none =>
      right; left
      refine ⟨sX, rfl, hroom, ?_, by rw [m1, p1], by rw [m2, p2], by rw [m4, p3], ?_⟩
      · intro hlt
        rw [← hlenc] at hlt
        obtain ⟨s2, h2⟩ := chanSend_isSome sX c _ hlt
        rw [h2] at hsend
        cases hsend
      · intro q
        rw [m3, p4 q]
    | some s2 =>
      right; right
      obtain ⟨c0, c1, c2, _, c4, c5⟩ := chanSend_eq_some sX s2 c _ hsend
      rw [hlenc] at c0
      refine ⟨_, rfl, hroom, c0, ?_, ?_, ?_, ?_⟩
      · rw [logPrintf_clients, c1, m1, p1]
      · rw [logPrintf_rooms, c2, m2, p2]
      · rw [logPrintf_sent, c4, m4, p3]
      · intro q
        rw [logPrintf_heap, c5 q, m3]
        by_cases hq : q = c
        · subst hq
          simp [p4, hc]
        · simp [hq, p4]


/-- A join returns only when its recipients had room, and then: `clients` is
untouched; room `r` gets `c` appended; every notified member gets one `_new_peer`
per entry and `c` gets `_peers` last. -/
theorem handleJoin_ok (marshal : JVal → Except String Bytes) (s s' : State) (c : Ptr)
    (data : JMap) (r : String) (hr : data "room" = some (JVal.str r))
    (h : handleJoin marshal s c data = Outcome.ok s') :
    LoopHasRoom s c (members s r) ∧ (s.heap c).send.length < sendCap ∧
    s'.clients = s.clients ∧
    s'.rooms = Function.update s.rooms r (some (members s r ++ [c])) ∧
    s'.sent = s.sent
      ++ (notified s c (members s r)).map
          (fun p => (p, encode marshal (newPeerMsg (s.heap c).id)))
      ++ [(c, encode marshal
          (peersMsg ((notified s c (members s r)).map (fun p => (s.heap p).id))
            (s.heap c).id))] ∧
    ∀ q, s'.heap q = Client.mk (s.heap q).id (s.heap q).connClosed
      ((s.heap q).send
        ++ List.replicate ((notified s c (members s r)).count q)
            (encode marshal (newPeerMsg (s.heap c).id))
        ++ (if q = c then [encode marshal
          (peersMsg ((notified s c (members s r)).map (fun p => (s.heap p).id))
            (s.heap c).id)] else []))
      (if q = c then r else (s.heap q).room) := by
  rcases handleJoin_cases marshal s c data r hr with
    ⟨s1, done, e, _⟩ | ⟨s1, e, _⟩ | ⟨s2, e, h1, h2, h3, h4, h5, h6⟩
  · rw [e] at h; cases h
  · rw [e] at h; cases h
  · rw [e] at h
    have hs : s2 = s' := by injection h
    subst hs
    exact ⟨h1, h2, h3, h4, h5, h6⟩

theorem handleEvent_join (marshal : JVal → Except String Bytes) (s : State) (c : Ptr)
    (data : JMap) : HandleEvent marshal s c "__join" data = handleJoin marshal s c data := by
  simp [HandleEvent]

theorem mapLit_of_not_mem (fields : List (String × JVal)) (k : String)
    (hk : k ∉ fields.map Prod.fst) : mapLit fields k = none := by
  induction fields with
  | nil => rfl
  | cons kv rest ih =>
    obtain ⟨k', v⟩ := kv
    simp only [List.map_cons, List.mem_cons, not_or] at hk
    have ih' := ih hk.2
    simp only [mapLit] at ih' ⊢
    simp [List.lookup, beq_eq_false_iff_ne.mpr hk.1, ih']

theorem mapLit_of_mem (fields : List (String × JVal)) (hnd : (fields.map Prod.fst).Nodup)
    (kv : String × JVal) (hkv : kv ∈ fields) : mapLit fields kv.1 = some kv.2 := by
  induction fields with
  | nil => simp at hkv
  | cons kv' rest ih =>
    obtain ⟨k', v'⟩ := kv'
    simp only [List.map_cons, List.nodup_cons] at hnd
    rcases List.mem_cons.mp hkv with h | h
    · subst h
      simp [mapLit, List.lookup]
    · have hne : kv.1 ≠ k' := by
        intro he
        apply hnd.1
        rw [← he]
        exact List.mem_map_of_mem Prod.fst h
      have ih' := ih hnd.2 h
      simp only [mapLit] at ih' ⊢
      simp [List.lookup, beq_eq_false_iff_ne.mpr hne, ih']

/-- An envelope literal of the program is an envelope in the sense of `IsEnvelope`. -/
theorem isEnvelope_mk (name : String) (fields : List (String × JVal))
    (hnd : (fields.map Prod.fst).Nodup) :
    IsEnvelope (JVal.obj (mapLit [("eventName", JVal.str name),
      ("data", JVal.obj (mapLit fields))])) name fields := by
  refine ⟨mapLit [("eventName", JVal.str name), ("data", JVal.obj (mapLit fields))],
    mapLit fields, rfl, ?_, ?_, ?_, ?_, ?_⟩
  · simp [mapLit, List.lookup]
  · simp only [mapLit, List.lookup]
    rfl
  · intro k h1 h2
    apply mapLit_of_not_mem
    simp [h1, h2]
  · intro kv hkv
    exact mapLit_of_mem fields hnd kv hkv
  · intro k hk
    exact mapLit_of_not_mem fields k hk

theorem isEnvelope_peers (ids : List String) (cid : String) :
    IsEnvelope (peersMsg ids cid) "_peers"
      [("connections", JVal.arr (ids.map JVal.str)), ("you", JVal.str cid)] :=
  isEnvelope_mk _ _ (by simp)

/-! ## The forwarding handlers -/

theorem handleIceCandidate_eq (marshal : JVal → Except String Bytes) (s : State) (c : Ptr)
    (data : JMap) : handleIceCandidate marshal s c data
      = forward marshal (iceCandidateMsg data (s.heap c).id)
          "Not found client in HandleIceCandidate" "接收到来自 %s 的ICE Candidate" s c data := rfl

theorem handleOffer_eq (marshal : JVal → Except String Bytes) (s : State) (c : Ptr)
    (data : JMap) : handleOffer marshal s c data
      = forward marshal (offerMsg data (s.heap c).id)
          "Not found client in HandleOffer" "接收到来自 %s 的Offer" s c data := rfl

theorem handleAnswer_eq (marshal : JVal → Except String Bytes) (s : State) (c : Ptr)
    (data : JMap) : handleAnswer marshal s c data
      = forward marshal (answerMsg data (s.heap c).id)
          "Not found client in HandleAnswer" "接收到来自 %s 的Answer" s c data := rfl

/-- A forwarding event is handled by `forward` with the envelope `forwardMsg`. -/
theorem handleEvent_forward (marshal : JVal → Except String Bytes) (s : State) (c : Ptr)
    (eventName : String) (data : JMap) (hev : IsForwardEvent eventName) :
    ∃ notFound received, HandleEvent marshal s c eventName data
      = forward marshal (forwardMsg eventName data (s.heap c).id) notFound received s c data := by
  rcases hev with h | h | h
  · subst h
    exact ⟨"Not found client in HandleIceCandidate", "接收到来自 %s 的ICE Candidate",
      by simp [HandleEvent, forwardMsg, handleIceCandidate_eq]⟩
  · subst h
    exact ⟨"Not found client in HandleOffer", "接收到来自 %s 的Offer",
      by simp [HandleEvent, forwardMsg, handleOffer_eq]⟩
  · subst h
    exact ⟨"Not found client in HandleAnswer", "接收到来自 %s 的Answer",
      by simp [HandleEvent, forwardMsg, handleAnswer_eq]⟩

/-- The two ways a forwarding handler ends when the target is found: returning, with
the message appended to the queue of the target, when that queue has room; waiting
at the send, with nothing sent, when it is full. -/
theorem forward_cases (marshal : JVal → Except String Bytes) (msg : JVal)
    (notFound received : String) (s : State) (c : Ptr) (data : JMap) (t : String) (cp : Ptr)
    (hd : data "socketId" = some (JVal.str t)) (hget : getClient s t = some cp) :
    ((s.heap cp).send.length < sendCap ∧
      ∃ s', forward marshal msg notFound received s c data = Outcome.ok s' ∧
        s'.clients = s.clients ∧ s'.rooms = s.rooms ∧
        s'.sent = s.sent ++ [(cp, encode marshal msg)] ∧
        ∀ q, s'.heap q = if q = cp then
            Client.mk (s.heap cp).id (s.heap cp).connClosed
              ((s.heap cp).send ++ [encode marshal msg]) (s.heap cp).room
          else s.heap q) ∨
    (¬ (s.heap cp).send.length < sendCap ∧
      ∃ s1, forward marshal msg notFound received s c data = Outcome.blocked s1 ∧
        s1.clients = s.clients ∧ s1.rooms = s.rooms ∧ s1.sent = s.sent ∧
        s1.heap = s.heap) := by
  unfold forward
  simp only [hd, asString, hget]
  obtain ⟨m1, m2, m3, m4⟩ := jsonMarshal_snd marshal s msg
  have hb := jsonMarshal_fst marshal s msg
  generalize (jsonMarshal marshal s msg).2 = sX at m1 m2 m3 m4 ⊢
  generalize (jsonMarshal marshal s msg).1 = b at hb ⊢
  subst hb
  cases hsend : chanSend sX cp (encode marshal msg) with
  | none =>
    right
    refine ⟨?_, sX, rfl, m1, m2, m4, m3⟩
    intro hlt
    rw [← m3] at hlt
    obtain ⟨s2, h2⟩ := chanSend_isSome sX cp (encode marshal msg) hlt
    rw [h2] at hsend
    cases hsend
  | some s2 =>
    left
    obtain ⟨c0, c1, c2, _, c4, c5⟩ := chanSend_eq_some sX s2 cp _ hsend
    rw [m3] at c0
    refine ⟨c0, _, rfl, ?_, ?_, ?_, ?_⟩
    · rw [logPrintf_clients, c1, m1]
    · rw [logPrintf_rooms, c2, m2]
    · rw [logPrintf_sent, c4, m4]
    · intro q
      rw [logPrintf_heap, c5 q, m3]

theorem forward_found (marshal : JVal → Except String Bytes) (msg : JVal)
    (notFound received : String) (s : State) (c : Ptr) (data : JMap) (t : String) (cp : Ptr)
    (hd : data "socketId" = some (JVal.str t)) (hget : getClient s t = some cp)
    (hroom : (s.heap cp).send.length < sendCap) :
    ∃ s', forward marshal msg notFound received s c data = Outcome.ok s' ∧
      s'.clients = s.clients ∧ s'.rooms = s.rooms ∧
      s'.sent = s.sent ++ [(cp, encode marshal msg)] ∧
      ∀ q, s'.heap q = if q = cp then
          Client.mk (s.heap cp).id (s.heap cp).connClosed
            ((s.heap cp).send ++ [encode marshal msg]) (s.heap cp).room
        else s.heap q := by
  rcases forward_cases marshal msg notFound received s c data t cp hd hget with
    ⟨_, h⟩ | ⟨hn, _⟩
  · exact h
  · exact absurd hroom hn

theorem forward_full (marshal : JVal → Except String Bytes) (msg : JVal)
    (notFound received : String) (s : State) (c : Ptr) (data : JMap) (t : String) (cp : Ptr)
    (hd : data "socketId" = some (JVal.str t)) (hget : getClient s t = some cp)
    (hfull : ¬ (s.heap cp).send.length < sendCap) :
    ∃ s1, forward marshal msg notFound received s c data = Outcome.blocked s1 ∧
      s1.clients = s.clients ∧ s1.rooms = s.rooms ∧ s1.sent = s.sent ∧
      s1.heap = s.heap := by
  rcases forward_cases marshal msg notFound received s c data t cp hd hget with
    ⟨h, _⟩ | ⟨_, h⟩
  · exact absurd h hfull
  · exact h

theorem forward_missing (marshal : JVal → Except String Bytes) (msg : JVal)
    (notFound received : String) (s : State) (c : Ptr) (data : JMap) (t : String)
    (hd : data "socketId" = some (JVal.str t)) (hget : getClient s t = none) :
    forward marshal msg notFound received s c data
      = Outcome.ok (logPrintf (logPrintf s notFound []) received [LogArg.str (s.heap c).id]) := by
  unfold forward
  simp only [hd, asString, hget]
  rfl

theorem forward_panic (marshal : JVal → Except String Bytes) (msg : JVal)
    (notFound received : String) (s : State) (c : Ptr) (data : JMap)
    (hd : asString (data "socketId") = none) :
    forward marshal msg notFound received s c data = Outcome.panic s := by
  unfold forward
  simp only [hd]

theorem getClient_of_registered (s : State) (t : String)
    (hreg : ∃ p ∈ s.clients, (s.heap p).id = t) :
    ∃ cp, getClient s t = some cp ∧ cp ∈ s.clients ∧ (s.heap cp).id = t := by
  obtain ⟨p, hp, hid⟩ := hreg
  cases h : getClient s t with
  | none =>
    unfold getClient at h
    rw [List.find?_eq_none] at h
    have := h p hp
    simp [hid] at this
  | some cp =>
    refine ⟨cp, rfl, ?_, ?_⟩
    · exact List.mem_of_find?_eq_some h
    · have := List.find?_some h
      simpa using this

theorem getClient_of_unregistered (s : State) (t : String)
    (hreg : ∀ p ∈ s.clients, (s.heap p).id ≠ t) : getClient s t = none := by
  unfold getClient
  rw [List.find?_eq_none]
  intro p hp
  simpa using hreg p hp


theorem find?_congr_mem {α : Type} (f g : α → Bool) :
    ∀ l : List α, (∀ x ∈ l, f x = g x) → l.find? f = l.find? g := by
  intro l
  induction l with
  | nil => intro _; rfl
  | cons a rest ih =>
    intro h
    have ha : f a = g a := h a (List.mem_cons_self a rest)
    have hr : rest.find? f = rest.find? g := ih (fun x hx => h x (List.mem_cons_of_mem a hx))
    simp [List.find?, ha, hr]

/-- Lookup after a registration: the first match among the clients registered
before, else the new record when it has the requested id. -/
theorem getClient_serveWs (s : State) (p : Ptr) (id t : String) (hfresh : p ∉ s.clients) :
    getClient (serveWs s p id) t
      = (getClient s t).or (if id = t then some p else none) := by
  have hold : s.clients.find? (fun c => ((Function.update s.heap p (Client.mk id false [] "")) c).id == t)
      = s.clients.find? (fun c => (s.heap c).id == t) := by
    apply find?_congr_mem
    intro x hx
    have hne : x ≠ p := fun h => hfresh (h ▸ hx)
    simp [Function.update_noteq hne]
  simp only [getClient, serveWs, logPrintf_clients, logPrintf_heap, List.find?_append, hold]
  by_cases h : id = t
  · simp [h, List.find?]
  · simp [h, List.find?, beq_eq_false_iff_ne.mpr h]

/-! ## One event, any event -/

theorem asString_eq_some (x : Option JVal) (r : String) (h : asString x = some r) :
    x = some (JVal.str r) := by
  cases x with
  | none => simp [asString] at h
  | some v =>
    cases v <;> simp [asString] at h
    rw [h]

theorem asString_eq_none (x : Option JVal) :
    asString x = none ↔ ∀ r, x ≠ some (JVal.str r) := by
  constructor
  · intro h r hx
    rw [hx] at h
    simp [asString] at h
  · intro h
    cases hx : asString x with
    | none => rfl
    | some r => exact absurd (asString_eq_some x r hx) (h r)

theorem handleJoin_panic (marshal : JVal → Except String Bytes) (s : State) (c : Ptr)
    (data : JMap) (h : asString (data "room") = none) :
    handleJoin marshal s c data = Outcome.panic s := by
  unfold handleJoin
  simp only [h]

/-- Every event: a panic leaves the state as it was given. -/
theorem handleEvent_panic (marshal : JVal → Except String Bytes) (s s' : State) (c : Ptr)
    (eventName : String) (data : JMap)
    (h : HandleEvent marshal s c eventName data = Outcome.panic s') : s' = s := by
  by_cases hj : eventName = "__join"
  · subst hj
    rw [handleEvent_join] at h
    cases hr : asString (data "room") with
    | none =>
      rw [handleJoin_panic marshal s c data hr] at h
      injection h with h
      exact h.symm
    | some r =>
      rcases handleJoin_cases marshal s c data r (asString_eq_some _ _ hr) with
        ⟨s1, done, e, _⟩ | ⟨s1, e, _⟩ | ⟨s2, e, _⟩ <;> (rw [e] at h; cases h)
  · by_cases hf : IsForwardEvent eventName
    · obtain ⟨notFound, received, hfw⟩ := handleEvent_forward marshal s c eventName data hf
      rw [hfw] at h
      cases hd : asString (data "socketId") with
      | none =>
        rw [forward_panic marshal _ notFound received s c data hd] at h
        injection h with h
        exact h.symm
      | some t =>
        cases hg : getClient s t with
        | none =>
          rw [forward_missing marshal _ notFound received s c data t
            (asString_eq_some _ _ hd) hg] at h
          cases h
        | some cp =>
          rcases forward_cases marshal (forwardMsg eventName data (s.heap c).id) notFound
            received s c data t cp (asString_eq_some _ _ hd) hg with
            ⟨_, s1, e, _⟩ | ⟨_, s1, e, _⟩ <;> (rw [e] at h; cases h)
    · have h1 : eventName ≠ "__ice_candidate" := fun e => hf (Or.inl e)
      have h2 : eventName ≠ "__offer" := fun e => hf (Or.inr (Or.inl e))
      have h3 : eventName ≠ "__answer" := fun e => hf (Or.inr (Or.inr e))
      simp [HandleEvent, hj, h1, h2, h3] at h

/-- Every event that returns: `clients` is unchanged, no id and no connection bit
changes, a room changes only by the append of a join, and a room field only by
the assignment of a join. -/
theorem handleEvent_ok (marshal : JVal → Except String Bytes) (s s' : State) (c : Ptr)
    (eventName : String) (data : JMap)
    (h : HandleEvent marshal s c eventName data = Outcome.ok s') :
    s'.clients = s.clients ∧
    (∀ q, (s'.heap q).id = (s.heap q).id ∧ (s'.heap q).connClosed = (s.heap q).connClosed) ∧
    (∀ r, members s' r = members s r
      ++ (if joinRoom (Event.mk c eventName data) = some r then [c] else [])) ∧
    (∀ q, (s'.heap q).room =
      if q = c then (joinRoom (Event.mk c eventName data)).getD (s.heap q).room
      else (s.heap q).room) := by
  by_cases hj : eventName = "__join"
  · subst hj
    rw [handleEvent_join] at h
    cases hr : asString (data "room") with
    | none =>
      rw [handleJoin_panic marshal s c data hr] at h
      cases h
    | some r0 =>
      obtain ⟨_, _, c1, r1, _, h1⟩ := handleJoin_ok marshal s s' c data r0
        (asString_eq_some _ _ hr) h
      have hjr : joinRoom (Event.mk c "__join" data) = some r0 := by
        simp [joinRoom, hr]
      refine ⟨c1, ?_, ?_, ?_⟩
      · intro q
        rw [h1 q]
        exact ⟨rfl, rfl⟩
      · intro r
        rw [hjr]
        by_cases hrr : r = r0
        · subst hrr
          simp [members, r1]
        · have hne : ¬ (some r0 = some r) := fun e => hrr (Option.some.inj e).symm
          simp only [members, r1, Function.update_noteq hrr, if_neg hne, List.append_nil]
      · intro q
        rw [h1 q, hjr]
        simp
  · have hjr : joinRoom (Event.mk c eventName data) = none := by
      simp [joinRoom, hj]
    rw [hjr]
    simp only [Option.getD_none, ite_self, if_false, List.append_nil]
    by_cases hf : IsForwardEvent eventName
    · obtain ⟨notFound, received, hfw⟩ := handleEvent_forward marshal s c eventName data hf
      rw [hfw] at h
      cases hd : asString (data "socketId") with
      | none =>
        rw [forward_panic marshal _ notFound received s c data hd] at h
        cases h
      | some t =>
        cases hg : getClient s t with
        | none =>
          rw [forward_missing marshal _ notFound received s c data t
            (asString_eq_some _ _ hd) hg] at h
          have hs : logPrintf (logPrintf s notFound []) received [LogArg.str (s.heap c).id]
              = s' := by injection h
          subst hs
          exact ⟨rfl, fun _ => ⟨rfl, rfl⟩, fun _ => by simp [members], fun _ => rfl⟩
        | some cp =>
          rcases forward_cases marshal (forwardMsg eventName data (s.heap c).id) notFound
            received s c data t cp (asString_eq_some _ _ hd) hg with
            ⟨_, s1, e1, c1, r1, _, h1⟩ | ⟨_, s1, e1, _⟩
          · rw [e1] at h
            have hs : s1 = s' := by injection h
            subst hs
            refine ⟨c1, ?_, ?_, ?_⟩
            · intro q
              rw [h1 q]
              by_cases hq : q = cp
              · subst hq; simp
              · simp [hq]
            · intro r
              simp [members, r1]
            · intro q
              rw [h1 q]
              by_cases hq : q = cp
              · subst hq; simp
              · simp [hq]
          · rw [e1] at h
            cases h
    · have h1 : eventName ≠ "__ice_candidate" := fun e => hf (Or.inl e)
      have h2 : eventName ≠ "__offer" := fun e => hf (Or.inr (Or.inl e))
      have h3 : eventName ≠ "__answer" := fun e => hf (Or.inr (Or.inr e))
      simp only [HandleEvent, hj, h1, h2, h3, if_false] at h
      have hs : s = s' := by injection h
      subst hs
      exact ⟨rfl, fun _ => ⟨rfl, rfl⟩, fun _ => by simp, fun _ => rfl⟩

/-- Every event that waits at a send: `clients` is unchanged, no id and no connection
bit changes, and each room is as before or has the joiner appended. -/
theorem handleEvent_blocked (marshal : JVal → Except String Bytes) (s s' : State) (c : Ptr)
    (eventName : String) (data : JMap)
    (h : HandleEvent marshal s c eventName data = Outcome.blocked s') :
    s'.clients = s.clients ∧
    (∀ q, (s'.heap q).id = (s.heap q).id ∧ (s'.heap q).connClosed = (s.heap q).connClosed) ∧
    (∀ r, members s r <+: members s' r) := by
  by_cases hj : eventName = "__join"
  · subst hj
    rw [handleEvent_join] at h
    cases hr : asString (data "room") with
    | none =>
      rw [handleJoin_panic marshal s c data hr] at h
      cases h
    | some r0 =>
      rcases handleJoin_cases marshal s c data r0 (asString_eq_some _ _ hr) with
        ⟨s1, done, e, _, _, _, _, a1, a2, _, a4⟩ | ⟨s1, e, _, _, a1, a2, _, a4⟩ | ⟨s2, e, _⟩
      · rw [e] at h
        have hs : s1 = s' := by injection h
        subst hs
        refine ⟨a1, fun q => by rw [a4 q]; exact ⟨rfl, rfl⟩, fun r => ?_⟩
        simp only [members, a2]
        exact List.prefix_refl _
      · rw [e] at h
        have hs : s1 = s' := by injection h
        subst hs
        refine ⟨a1, fun q => by rw [a4 q]; exact ⟨rfl, rfl⟩, fun r => ?_⟩
        by_cases hrr : r = r0
        · subst hrr
          simp only [members, a2, Function.update_same, Option.getD_some]
          exact List.prefix_append _ _
        · simp only [members, a2, Function.update_noteq hrr]
          exact List.prefix_refl _
      · rw [e] at h
        cases h
  · by_cases hf : IsForwardEvent eventName
    · obtain ⟨notFound, received, hfw⟩ := handleEvent_forward marshal s c eventName data hf
      rw [hfw] at h
      cases hd : asString (data "socketId") with
      | none =>
        rw [forward_panic marshal _ notFound received s c data hd] at h
        cases h
      | some t =>
        cases hg : getClient s t with
        | none =>
          rw [forward_missing marshal _ notFound received s c data t
            (asString_eq_some _ _ hd) hg] at h
          cases h
        | some cp =>
          rcases forward_cases marshal (forwardMsg eventName data (s.heap c).id) notFound
            received s c data t cp (asString_eq_some _ _ hd) hg with
            ⟨_, s1, e1, _⟩ | ⟨_, s1, e1, a1, a2, _, a4⟩
          · rw [e1] at h
            cases h
          · rw [e1] at h
            have hs : s1 = s' := by injection h
            subst hs
            refine ⟨a1, fun q => by rw [a4]; exact ⟨rfl, rfl⟩, fun r => ?_⟩
            simp only [members, a2]
            exact List.prefix_refl _
    · have h1 : eventName ≠ "__ice_candidate" := fun e => hf (Or.inl e)
      have h2 : eventName ≠ "__offer" := fun e => hf (Or.inr (Or.inl e))
      have h3 : eventName ≠ "__answer" := fun e => hf (Or.inr (Or.inr e))
      simp [HandleEvent, hj, h1, h2, h3] at h

/-! ## Sequences of events -/

theorem joiners_cons (e : Event) (es : List Event) (r : String) :
    joiners (e :: es) r = (if joinRoom e = some r then [e.client] else []) ++ joiners es r := by
  unfold joiners
  by_cases h : joinRoom e = some r
  · simp [List.filter_cons, h]
  · simp [List.filter_cons, h]

theorem mem_joiners (evs : List Event) (r : String) (c : Ptr) :
    c ∈ joiners evs r ↔ ∃ e ∈ evs, e.client = c ∧ joinRoom e = some r := by
  unfold joiners
  simp only [List.mem_map, List.mem_filter, decide_eq_true_eq]
  constructor
  · rintro ⟨e, ⟨he, hj⟩, hc⟩
    exact ⟨e, he, hc, hj⟩
  · rintro ⟨e, he, hc, hj⟩
    exact ⟨e, ⟨he, hj⟩, hc⟩

theorem joinRoom_eq_some (e : Event) (r : String) :
    joinRoom e = some r ↔ e.eventName = "__join" ∧ e.data "room" = some (JVal.str r) := by
  unfold joinRoom
  by_cases h : e.eventName = "__join"
  · simp only [h, if_true, true_and]
    constructor
    · exact asString_eq_some _ _
    · intro hd
      rw [hd]
      rfl
  · simp [h]


/-- A sequence of events that returns: `clients` and ids are unchanged, each room
is its list at the start followed by the clients that joined it, in order, and each
room field is the room of the most recent join of the client, if it joined. -/
theorem run_ok (marshal : JVal → Except String Bytes) :
    ∀ (evs : List Event) (s s' : State), run marshal evs s = Outcome.ok s' →
      s'.clients = s.clients ∧
      (∀ q, (s'.heap q).id = (s.heap q).id) ∧
      (∀ r, members s' r = members s r ++ joiners evs r) ∧
      (∀ q, (s'.heap q).room = (lastJoin evs q).getD (s.heap q).room) := by
  intro evs
  induction evs with
  | nil =>
    intro s s' h
    have hs : s = s' := by
      simp only [run] at h
      injection h
    subst hs
    exact ⟨rfl, fun _ => rfl, fun _ => by simp [joiners], fun _ => rfl⟩
  | cons e es ih =>
    intro s s' h
    obtain ⟨c, eventName, data⟩ := e
    cases hstep : HandleEvent marshal s c eventName data with
    | panic s1 =>
      simp only [run, hstep] at h
      cases h
    | blocked s1 =>
      simp only [run, hstep] at h
      cases h
    | ok s1 =>
      simp only [run, hstep] at h
      obtain ⟨a1, a2, a3, a4⟩ := handleEvent_ok marshal s s1 c eventName data hstep
      obtain ⟨b1, b2, b3, b4⟩ := ih s1 s' h
      refine ⟨by rw [b1, a1], fun q => by rw [b2 q, (a2 q).1], ?_, ?_⟩
      · intro r
        rw [b3 r, a3 r, joiners_cons, List.append_assoc]
      · intro q
        rw [b4 q, a4 q]
        simp only [lastJoin]
        cases hl : lastJoin es q with
        | some r => simp
        | none =>
          by_cases hq : q = c
          · subst hq; simp
          · have hq' : ¬ c = q := fun e => hq e.symm
            simp [hq, hq']

/-- A sequence of events, returning or stopped by a panic or by a waiting send:
`clients` and ids are unchanged and every room list at the start is a prefix of the
list at the end. -/
theorem run_state (marshal : JVal → Except String Bytes) :
    ∀ (evs : List Event) (s : State),
      (run marshal evs s).state.clients = s.clients ∧
      (∀ q, ((run marshal evs s).state.heap q).id = (s.heap q).id) ∧
      (∀ r, members s r <+: members (run marshal evs s).state r) := by
  intro evs
  induction evs with
  | nil =>
    intro s
    exact ⟨rfl, fun _ => rfl, fun _ => List.prefix_refl _⟩
  | cons e es ih =>
    intro s
    obtain ⟨c, eventName, data⟩ := e
    cases hstep : HandleEvent marshal s c eventName data with
    | panic s1 =>
      have hs := handleEvent_panic marshal s s1 c eventName data hstep
      subst hs
      have hr : run marshal (Event.mk c eventName data :: es) s1 = Outcome.panic s1 := by
        simp only [run, hstep]
      rw [hr]
      exact ⟨rfl, fun _ => rfl, fun _ => List.prefix_refl _⟩
    | blocked s1 =>
      obtain ⟨a1, a2, a3⟩ := handleEvent_blocked marshal s s1 c eventName data hstep
      have hr : run marshal (Event.mk c eventName data :: es) s = Outcome.blocked s1 := by
        simp only [run, hstep]
      rw [hr]
      exact ⟨a1, fun q => (a2 q).1, a3⟩
    | ok s1 =>
      obtain ⟨a1, a2, a3, _⟩ := handleEvent_ok marshal s s1 c eventName data hstep
      obtain ⟨b1, b2, b3⟩ := ih s1
      have hr : run marshal (Event.mk c eventName data :: es) s = run marshal es s1 := by
        simp only [run, hstep]
      rw [hr]
      refine ⟨by rw [b1, a1], fun q => by rw [b2 q, (a2 q).1], ?_⟩
      intro r
      refine List.IsPrefix.trans ?_ (b3 r)
      rw [a3 r]
      exact List.prefix_append _ _

theorem joiners_joinEvent (R : String) :
    ∀ pre : List Ptr, joiners (pre.map (joinEvent R)) R = pre := by
  intro pre
  induction pre with
  | nil => rfl
  | cons p rest ih =>
    rw [List.map_cons, joiners_cons, ih]
    have h : joinRoom (joinEvent R p) = some R := rfl
    rw [if_pos h]
    rfl

theorem lastJoin_cons (e : Event) (es : List Event) (c : Ptr) :
    lastJoin (e :: es) c
      = (lastJoin es c).or (if e.client = c then joinRoom e else none) := by
  simp only [lastJoin]
  cases lastJoin es c <;> rfl

theorem mem_joiners_of_lastJoin (c : Ptr) (r : String) :
    ∀ evs : List Event, lastJoin evs c = some r → c ∈ joiners evs r := by
  intro evs
  induction evs with
  | nil => intro h; simp [lastJoin] at h
  | cons e es ih =>
    intro h
    rw [lastJoin_cons] at h
    rw [joiners_cons, List.mem_append]
    cases hl : lastJoin es c with
    | some r' =>
      rw [hl] at h
      right
      apply ih
      rw [hl]
      simpa using h
    | none =>
      rw [hl] at h
      left
      by_cases hc : e.client = c
      · simp only [hc, if_true, Option.none_or] at h
        simp [h, hc]
      · simp [hc] at h

theorem lastJoin_of_mem_joiners (c : Ptr) (r : String) :
    ∀ evs : List Event, c ∈ joiners evs r → ∃ r', lastJoin evs c = some r' := by
  intro evs
  induction evs with
  | nil => intro h; simp [joiners] at h
  | cons e es ih =>
    intro h
    rw [joiners_cons, List.mem_append] at h
    rw [lastJoin_cons]
    cases hl : lastJoin es c with
    | some r' => exact ⟨r', rfl⟩
    | none =>
      rcases h with h | h
      · by_cases hj : joinRoom e = some r
        · simp only [hj, if_true, List.mem_singleton] at h
          exact ⟨r, by simp [h, hj]⟩
        · simp [hj] at h
      · obtain ⟨r', hr'⟩ := ih h
        rw [hl] at hr'
        cases hr'

theorem asMap_eq_none (x : Option JVal) :
    asMap x = none ↔ ∀ d, x ≠ some (JVal.obj d) := by
  constructor
  · intro h d hx
    rw [hx] at h
    simp [asMap] at h
  · intro h
    cases x with
    | none => rfl
    | some v =>
      cases v with
      | obj d => exact absurd rfl (h d)
      | _ => rfl

/-- When `HandleEvent` panics: a `__join` whose `room` is not a string, or a
forwarding event whose `socketId` is not a string. -/
theorem handleEvent_panic_iff (marshal : JVal → Except String Bytes) (s : State) (c : Ptr)
    (eventName : String) (data : JMap) :
    (∃ s', HandleEvent marshal s c eventName data = Outcome.panic s') ↔
      (eventName = "__join" ∧ ∀ r, data "room" ≠ some (JVal.str r)) ∨
      (IsForwardEvent eventName ∧ ∀ t, data "socketId" ≠ some (JVal.str t)) := by
  by_cases hj : eventName = "__join"
  · subst hj
    have hnf : ¬ IsForwardEvent "__join" := by
      unfold IsForwardEvent
      decide
    rw [handleEvent_join]
    cases hr : asString (data "room") with
    | none =>
      rw [handleJoin_panic marshal s c data hr]
      constructor
      · intro _
        exact Or.inl ⟨rfl, (asString_eq_none _).mp hr⟩
      · intro _
        exact ⟨s, rfl⟩
    | some r =>
      have hdr := asString_eq_some _ _ hr
      constructor
      · rintro ⟨s', h⟩
        rcases handleJoin_cases marshal s c data r hdr with
          ⟨s1, done, e, _⟩ | ⟨s1, e, _⟩ | ⟨s2, e, _⟩ <;> (rw [e] at h; cases h)
      · rintro (⟨_, h⟩ | ⟨h, _⟩)
        · exact absurd hdr (h r)
        · exact absurd h hnf
  · by_cases hf : IsForwardEvent eventName
    · obtain ⟨notFound, received, hfw⟩ := handleEvent_forward marshal s c eventName data hf
      rw [hfw]
      cases hd : asString (data "socketId") with
      | none =>
        rw [forward_panic marshal _ notFound received s c data hd]
        constructor
        · intro _
          exact Or.inr ⟨hf, (asString_eq_none _).mp hd⟩
        · intro _
          exact ⟨s, rfl⟩
      | some t =>
        have hdt := asString_eq_some _ _ hd
        constructor
        · rintro ⟨s', h⟩
          cases hg : getClient s t with
          | none =>
            rw [forward_missing marshal _ notFound received s c data t hdt hg] at h
            cases h
          | some cp =>
            rcases forward_cases marshal (forwardMsg eventName data (s.heap c).id) notFound
              received s c data t cp hdt hg with
              ⟨_, s1, e, _⟩ | ⟨_, s1, e, _⟩ <;> (rw [e] at h; cases h)
        · rintro (⟨h, _⟩ | ⟨_, h⟩)
          · exact absurd h hj
          · exact absurd hdt (h t)
    · have h1 : eventName ≠ "__ice_candidate" := fun e => hf (Or.inl e)
      have h2 : eventName ≠ "__offer" := fun e => hf (Or.inr (Or.inl e))
      have h3 : eventName ≠ "__answer" := fun e => hf (Or.inr (Or.inr e))
      have hok : HandleEvent marshal s c eventName data = Outcome.ok s := by
        simp [HandleEvent, hj, h1, h2, h3]
      rw [hok]
      constructor
      · rintro ⟨s', h⟩
        cases h
      · rintro (⟨h, _⟩ | ⟨h, _⟩)
        · exact absurd h hj
        · exact absurd h hf


/-! ## Room in the queues -/

theorem count_notified_self (s : State) (c : Ptr) (l : List Ptr) :
    (notified s c l).count c = 0 := by
  apply List.count_eq_zero_of_not_mem
  simp [notified]

/-- `JoinHasRoom`, recipient by recipient: the notified members have room for the
loop and `c` has room for the reply. -/
theorem joinHasRoom_iff (s : State) (c : Ptr) (r : String) :
    JoinHasRoom s c r ↔
      LoopHasRoom s c (members s r) ∧ (s.heap c).send.length < sendCap := by
  have hc := count_notified_self s c (members s r)
  constructor
  · intro h
    constructor
    · intro q hq
      have hpos : 0 < (notified s c (members s r)).count q := List.count_pos_iff.mpr hq
      have := h q (by unfold joinSends; omega)
      unfold joinSends at this
      omega
    · have := h c (by unfold joinSends; simp)
      unfold joinSends at this
      simp only [if_true] at this
      omega
  · rintro ⟨hl, hlt⟩ q hq
    unfold joinSends at hq ⊢
    by_cases hqc : q = c
    · subst hqc
      rw [hc]
      simp only [if_true]
      omega
    · simp only [if_neg hqc, Nat.add_zero] at hq ⊢
      exact hl q (List.count_pos_iff.mp hq)

/-- A join returns exactly when every client it sends to has room. -/
theorem handleJoin_ok_iff (marshal : JVal → Except String Bytes) (s : State) (c : Ptr)
    (data : JMap) (r : String) (hr : data "room" = some (JVal.str r)) :
    (∃ s', handleJoin marshal s c data = Outcome.ok s') ↔ JoinHasRoom s c r := by
  rw [joinHasRoom_iff]
  constructor
  · rintro ⟨s', h⟩
    obtain ⟨h1, h2, _⟩ := handleJoin_ok marshal s s' c data r hr h
    exact ⟨h1, h2⟩
  · rintro ⟨hl, hc⟩
    rcases handleJoin_cases marshal s c data r hr with
      ⟨s1, done, _, hn, _⟩ | ⟨s1, _, _, hn, _⟩ | ⟨s2, e, _⟩
    · exact absurd hl hn
    · exact absurd hc hn
    · exact ⟨s2, e⟩

/-- What `handleJoin` does on `{room: r}` when every client it sends to has room. -/
theorem handleJoin_room (marshal : JVal → Except String Bytes) (s : State) (c : Ptr)
    (data : JMap) (r : String) (hr : data "room" = some (JVal.str r))
    (hroom : JoinHasRoom s c r) :
    ∃ s', handleJoin marshal s c data = Outcome.ok s' ∧
      s'.clients = s.clients ∧
      s'.rooms = Function.update s.rooms r (some (members s r ++ [c])) ∧
      s'.sent = s.sent
        ++ (notified s c (members s r)).map
            (fun p => (p, encode marshal (newPeerMsg (s.heap c).id)))
        ++ [(c, encode marshal
            (peersMsg ((notified s c (members s r)).map (fun p => (s.heap p).id))
              (s.heap c).id))] ∧
      ∀ q, s'.heap q = Client.mk (s.heap q).id (s.heap q).connClosed
        ((s.heap q).send
          ++ List.replicate ((notified s c (members s r)).count q)
              (encode marshal (newPeerMsg (s.heap c).id))
          ++ (if q = c then [encode marshal
            (peersMsg ((notified s c (members s r)).map (fun p => (s.heap p).id))
              (s.heap c).id)] else []))
        (if q = c then r else (s.heap q).room) := by
  obtain ⟨s', e⟩ := (handleJoin_ok_iff marshal s c data r hr).mpr hroom
  obtain ⟨_, _, h3, h4, h5, h6⟩ := handleJoin_ok marshal s s' c data r hr e
  exact ⟨s', e, h3, h4, h5, h6⟩

/-- Empty queues have room for a join to a room with fewer than `sendCap` entries. -/
theorem joinHasRoom_of_short (s : State) (c : Ptr) (r : String) (n : Nat)
    (hq : ∀ q, (s.heap q).send.length ≤ n)
    (hm : n + (members s r).length < sendCap) : JoinHasRoom s c r := by
  intro q _
  have h1 := hq q
  have h2 : (notified s c (members s r)).count q ≤ (members s r).length := by
    refine le_trans (List.count_le_length _ _) ?_
    unfold notified
    exact List.length_filter_le _ _
  unfold joinSends
  by_cases hqc : q = c
  · subst hqc
    rw [count_notified_self]
    simp only [if_true]
    omega
  · simp only [if_neg hqc]
    omega

/-- In the state `stalled`, a join of client 1 for `r1` sends `_new_peer` to client 2
and then waits at the send to client 0, with nothing else changed. -/
theorem stalled_join (marshal : JVal → Except String Bytes) :
    ∃ s1, handleJoin marshal stalled 1 (mapLit [("room", JVal.str "r1")])
        = Outcome.blocked s1 ∧
      s1.rooms = stalled.rooms ∧
      s1.sent = [(2, encode marshal (newPeerMsg "1"))] ∧
      (s1.heap 1).send = [] := by
  have hr : mapLit [("room", JVal.str "r1")] "room" = some (JVal.str "r1") := rfl
  have hmem : members stalled "r1" = [2, 0] := rfl
  have hnot : notified stalled 1 [2, 0] = [2, 0] := by decide
  have hfull : ¬ LoopHasRoom stalled 1 (members stalled "r1") := by
    intro h
    have := h 0 (by rw [hmem, hnot]; simp)
    rw [hmem, hnot] at this
    have hlen : (stalled.heap 0).send.length = 256 := by
      show (List.replicate 256 _).length = 256
      rw [List.length_replicate]
    rw [hlen] at this
    simp [sendCap] at this
  rcases handleJoin_cases marshal stalled 1 _ "r1" hr with
    ⟨s1, done, e, _, _, _, ⟨next, d3, d4⟩, _, a2, a3, a4⟩ | ⟨s1, _, hl, _⟩ | ⟨s2, _, hl, _⟩
  · rw [hmem, hnot] at d3
    have hdone : done = [2] := by
      rcases done with _ | ⟨x, _ | ⟨y, rest⟩⟩
      · exfalso
        simp only [List.nil_append] at d3
        have hx : next = 2 := by
          have := List.prefix_iff_eq_take.mp d3
          simpa using this
        subst hx
        apply d4
        show (0 : Nat) + 0 < 256
        decide
      · have hx : x = 2 := by
          have := List.prefix_iff_eq_take.mp d3
          simp at this
          exact this.1
        rw [hx]
      · exfalso
        have := d3.length_le
        simp at this
    subst hdone
    refine ⟨s1, e, a2, ?_, ?_⟩
    · rw [a3]
      rfl
    · rw [a4 1]
      rfl
  · exact absurd hl hfull
  · exact absurd hl hfull

/-- In the state `stalled`, a forwarding handler with target id `0` waits at the send
to client 0, with nothing sent and no record changed. -/
theorem stalled_forward (marshal : JVal → Except String Bytes) (msg : JVal)
    (notFound received : String) (data : JMap)
    (hd : data "socketId" = some (JVal.str "0")) :
    ∃ s1, forward marshal msg notFound received stalled 1 data = Outcome.blocked s1 ∧
      s1.sent = [] ∧ s1.heap = stalled.heap := by
  have hg : getClient stalled "0" = some 0 := by decide
  have hfull : ¬ (stalled.heap 0).send.length < sendCap := by
    have hlen : (stalled.heap 0).send.length = 256 := by
      show (List.replicate 256 _).length = 256
      rw [List.length_replicate]
    rw [hlen]
    decide
  obtain ⟨s1, e, _, _, h3, h4⟩ := forward_full marshal msg notFound received stalled 1 data
    "0" 0 hd hg hfull
  exact ⟨s1, e, h3, h4⟩

/-- The sends of a join, returned or waiting: an initial part of the `_new_peer`
messages in member order followed by the `_peers` to `c`; the record of a client
that is neither a member of `r` nor `c` is unchanged; nothing panics. -/
theorem handleJoin_sends (marshal : JVal → Except String Bytes) (s : State) (c : Ptr)
    (data : JMap) (r : String) (hr : data "room" = some (JVal.str r)) :
    ∃ new, (handleJoin marshal s c data).state.sent = s.sent ++ new ∧
      new <+: (notified s c (members s r)).map
          (fun p => (p, encode marshal (newPeerMsg (s.heap c).id)))
        ++ [(c, encode marshal
          (peersMsg ((notified s c (members s r)).map (fun p => (s.heap p).id))
            (s.heap c).id))] ∧
      (∀ q, q ∉ members s r → q ≠ c →
        (handleJoin marshal s c data).state.heap q = s.heap q) ∧
      ((∃ s', handleJoin marshal s c data = Outcome.ok s') →
        new = (notified s c (members s r)).map
            (fun p => (p, encode marshal (newPeerMsg (s.heap c).id)))
          ++ [(c, encode marshal
            (peersMsg ((notified s c (members s r)).map (fun p => (s.heap p).id))
              (s.heap c).id))]) ∧
      ((∀ s', handleJoin marshal s c data ≠ Outcome.ok s') →
        ∃ s1, handleJoin marshal s c data = Outcome.blocked s1 ∧
          new.length ≤ (notified s c (members s r)).length) := by
  have hcount : ∀ (l : List Ptr) (q : Ptr), l <+: notified s c (members s r) →
      q ∉ members s r → l.count q = 0 := by
    intro l q hl hq
    apply List.count_eq_zero_of_not_mem
    intro hmem
    exact hq (List.mem_filter.mp (hl.subset hmem)).1
  rcases handleJoin_cases marshal s c data r hr with
    ⟨s1, done, e, _, d1, _, _, _, _, a3, a4⟩ | ⟨s1, e, _, _, _, _, a3, a4⟩ |
    ⟨s2, e, _, _, _, _, a3, a4⟩
  · rw [e]
    refine ⟨_, a3, ?_, ?_, ?_, ?_⟩
    · exact (List.IsPrefix.map _ d1).trans (List.prefix_append _ _)
    · intro q hq _
      show s1.heap q = _
      rw [a4 q, hcount done q d1 hq]
      simp
    · rintro ⟨s', h⟩
      cases h
    · intro _
      refine ⟨s1, rfl, ?_⟩
      rw [List.length_map]
      exact d1.length_le
  · rw [e]
    refine ⟨_, a3, List.prefix_append _ _, ?_, ?_, ?_⟩
    · intro q hq hqc
      show s1.heap q = _
      rw [a4 q, hcount _ q (List.prefix_refl _) hq]
      simp [hqc]
    · rintro ⟨s', h⟩
      cases h
    · intro _
      refine ⟨s1, rfl, ?_⟩
      rw [List.length_map]
  · rw [e]
    refine ⟨_, by show s2.sent = _; rw [a3, List.append_assoc], List.prefix_refl _, ?_, ?_, ?_⟩
    · intro q hq hqc
      show s2.heap q = _
      rw [a4 q, hcount _ q (List.prefix_refl _) hq]
      simp [hqc]
    · intro _
      rfl
    · intro h
      exact absurd rfl (h s2)

/-! ## When a handler returns -/

/-- A handler returns exactly when it does not panic and each of its sends finds
room; otherwise it waits at a send. -/
theorem handleEvent_ok_iff (marshal : JVal → Except String Bytes) (s : State) (c : Ptr)
    (eventName : String) (data : JMap) :
    (∃ s', HandleEvent marshal s c eventName data = Outcome.ok s') ↔
      (¬ ∃ s', HandleEvent marshal s c eventName data = Outcome.panic s') ∧
      EventHasRoom s c eventName data := by
  by_cases hj : eventName = "__join"
  · subst hj
    have hnf : ¬ IsForwardEvent "__join" := by
      unfold IsForwardEvent
      decide
    rw [handleEvent_join]
    cases hr : asString (data "room") with
    | none =>
      rw [handleJoin_panic marshal s c data hr]
      constructor
      · rintro ⟨s', h⟩
        cases h
      · rintro ⟨h, _⟩
        exact absurd ⟨s, rfl⟩ h
    | some r0 =>
      have hr0 := asString_eq_some _ _ hr
      rw [handleJoin_ok_iff marshal s c data r0 hr0]
      constructor
      · intro hroom
        refine ⟨?_, ?_, fun hf => absurd hf hnf⟩
        · rintro ⟨s', h⟩
          obtain ⟨s2, e⟩ := (handleJoin_ok_iff marshal s c data r0 hr0).mpr hroom
          rw [e] at h
          cases h
        · intro _ r hr'
          rw [hr0] at hr'
          have hrr : r0 = r := by
            injection hr' with h
            injection h
          subst hrr
          exact hroom
      · rintro ⟨_, h, _⟩
        exact h rfl r0 hr0
  · by_cases hf : IsForwardEvent eventName
    · obtain ⟨notFound, received, hfw⟩ := handleEvent_forward marshal s c eventName data hf
      rw [hfw]
      cases hd : asString (data "socketId") with
      | none =>
        rw [forward_panic marshal _ notFound received s c data hd]
        constructor
        · rintro ⟨s', h⟩
          cases h
        · rintro ⟨h, _⟩
          exact absurd ⟨s, rfl⟩ h
      | some t =>
        have hdt := asString_eq_some _ _ hd
        cases hg : getClient s t with
        | none =>
          rw [forward_missing marshal _ notFound received s c data t hdt hg]
          constructor
          · intro _
            refine ⟨?_, fun h => absurd h hj, ?_⟩
            · rintro ⟨s', h⟩
              cases h
            · intro _ t' cp ht' hg'
              rw [hdt] at ht'
              have htt : t = t' := by
                injection ht' with h
                injection h
              subst htt
              rw [hg] at hg'
              cases hg'
          · intro _
            exact ⟨_, rfl⟩
        | some cp =>
          rcases forward_cases marshal (forwardMsg eventName data (s.heap c).id) notFound
            received s c data t cp hdt hg with ⟨hroom, s', e, _⟩ | ⟨hfull, s1, e, _⟩
          · rw [e]
            constructor
            · intro _
              refine ⟨?_, fun h => absurd h hj, ?_⟩
              · rintro ⟨s2, h⟩
                cases h
              · intro _ t' cp' ht' hg'
                rw [hdt] at ht'
                have htt : t = t' := by
                  injection ht' with h
                  injection h
                subst htt
                rw [hg] at hg'
                have hcp : cp = cp' := by injection hg'
                subst hcp
                exact hroom
            · intro _
              exact ⟨s', rfl⟩
          · rw [e]
            constructor
            · rintro ⟨s2, h⟩
              cases h
            · rintro ⟨_, _, h⟩
              exact absurd (h hf t cp hdt hg) hfull
    · have h1 : eventName ≠ "__ice_candidate" := fun e => hf (Or.inl e)
      have h2 : eventName ≠ "__offer" := fun e => hf (Or.inr (Or.inl e))
      have h3 : eventName ≠ "__answer" := fun e => hf (Or.inr (Or.inr e))
      have he : HandleEvent marshal s c eventName data = Outcome.ok s := by
        simp [HandleEvent, hj, h1, h2, h3]
      rw [he]
      constructor
      · intro _
        refine ⟨?_, fun h => absurd h hj, fun h => absurd h hf⟩
        rintro ⟨s2, h⟩
        cases h
      · intro _
        exact ⟨s, rfl⟩

/-- In the state `stalled` an offer of client 1 to client 0 waits at the send and
sends nothing. -/
theorem stalled_offer (marshal : JVal → Except String Bytes) :
    ∃ s1, HandleEvent marshal stalled 1 "__offer"
        (mapLit [("socketId", JVal.str "0"), ("sdp", JVal.str "X")]) = Outcome.blocked s1 ∧
      s1.sent = [] ∧ s1.heap = stalled.heap := by
  obtain ⟨s1, e, h3, h4⟩ := stalled_forward marshal
    (offerMsg (mapLit [("socketId", JVal.str "0"), ("sdp", JVal.str "X")]) (stalled.heap 1).id)
    "Not found client in HandleOffer" "接收到来自 %s 的Offer"
    (mapLit [("socketId", JVal.str "0"), ("sdp", JVal.str "X")]) rfl
  rw [← handleOffer_eq] at e
  refine ⟨s1, ?_, h3, h4⟩
  rw [← e]
  simp [HandleEvent]

/-! ## Claims -/

/-- Counterexample to C1: in the state `stalled` client 1 sends `__join` for `r1`.
The join waits at the `_new_peer` send to client 0, whose channel is full: for no
encoder does it return, and the queue of client 1 never gets a `_peers` message. -/
theorem join_reply_counterexample :
    ¬ ∃ marshal : JVal → Except String Bytes,
      (∃ s', HandleEvent marshal stalled 1 "__join" (mapLit [("room", JVal.str "r1")])
        = Outcome.ok s') ∨
      ((HandleEvent marshal stalled 1 "__join"
        (mapLit [("room", JVal.str "r1")])).state.heap 1).send ≠ [] := by
  rintro ⟨marshal, h⟩
  obtain ⟨s1, e, _, _, h4⟩ := stalled_join marshal
  rw [handleEvent_join, e] at h
  rcases h with ⟨s', h⟩ | h
  · cases h
  · exact h h4

/-- C1 (amended): when every client the join sends to has room in its queue,
handling `__join {room: r}` for `c` returns and puts exactly one message on the
queue of `c`: the `_peers` envelope whose `you` is the id of `c` and whose
`connections` are the ids of the entries of `r` before the join whose id differs
from that of `c`, in member order (none when `r` had no entry). -/
theorem join_replies_with_peers (marshal : JVal → Except String Bytes) (s : State) (c : Ptr)
    (data : JMap) (r : String) (hr : data "room" = some (JVal.str r))
    (hroom : JoinHasRoom s c r) :
    ∃ s' ids, HandleEvent marshal s c "__join" data = Outcome.ok s' ∧
      ids = ((members s r).filter
              (fun p => decide ((s.heap c).id ≠ (s.heap p).id))).map (fun p => (s.heap p).id) ∧
      (s.rooms r = none → ids = []) ∧
      (s'.heap c).send = (s.heap c).send ++ [encode marshal (peersMsg ids (s.heap c).id)] ∧
      (s'.sent.drop s.sent.length).filter (fun e => decide (e.1 = c))
        = [(c, encode marshal (peersMsg ids (s.heap c).id))] ∧
      IsEnvelope (peersMsg ids (s.heap c).id) "_peers"
        [("connections", JVal.arr (ids.map JVal.str)), ("you", JVal.str (s.heap c).id)] := by
  obtain ⟨s', h0, _, _, h3, h4⟩ := handleJoin_room marshal s c data r hr hroom
  have hc : (notified s c (members s r)).count c = 0 := by
    apply List.count_eq_zero_of_not_mem
    simp [notified]
  refine ⟨s', _, by rw [handleEvent_join]; exact h0, rfl, ?_, ?_, ?_, isEnvelope_peers _ _⟩
  · intro hnone
    simp [members, hnone]
  · rw [h4 c]
    simp only [if_true]
    rw [hc]
    simp [notified]
  · rw [h3]
    simp only [List.append_assoc, List.drop_left, List.filter_append]
    have : List.filter (fun e => decide (e.1 = c))
        (List.map (fun p => (p, encode marshal (newPeerMsg (s.heap c).id)))
          (notified s c (members s r))) = [] := by
      rw [List.filter_eq_nil_iff]
      intro e he
      simp only [List.mem_map] at he
      obtain ⟨p, hp, rfl⟩ := he
      have : p ≠ c := by
        intro h
        subst h
        simp [notified] at hp
      simpa using this
    rw [this]
    simp [notified]

/-- Witness for C1 (amended): a join to a room holding one other member, all queues
empty. -/
theorem join_replies_with_peers_witness :
    (mapLit [("room", JVal.str "r1")] "room" = some (JVal.str "r1") ∧
      JoinHasRoom (State.mk [0, 1] (fun r => if r = "r1" then some [0] else none)
        (fun p => Client.mk (toString p) false [] "") [] []) 1 "r1") ∧
    ∀ marshal : JVal → Except String Bytes,
      ∃ s' ids, HandleEvent marshal
          (State.mk [0, 1] (fun r => if r = "r1" then some [0] else none)
            (fun p => Client.mk (toString p) false [] "") [] [])
          1 "__join" (mapLit [("room", JVal.str "r1")]) = Outcome.ok s' ∧
        ids = ["0"] ∧
        (s'.heap 1).send = [encode marshal (peersMsg ids "1")] :=
  ⟨⟨by simp [mapLit, List.lookup],
      joinHasRoom_of_short _ 1 "r1" 0 (fun _ => Nat.le_refl 0) (by decide)⟩,
    fun marshal => by
    obtain ⟨s', ids, h1, h2, _, h4, _⟩ := join_replies_with_peers marshal
      (State.mk [0, 1] (fun r => if r = "r1" then some [0] else none)
        (fun p => Client.mk (toString p) false [] "") [] [])
      1 (mapLit [("room", JVal.str "r1")]) "r1" (by simp [mapLit, List.lookup])
      (joinHasRoom_of_short _ 1 "r1" 0 (fun _ => Nat.le_refl 0) (by decide))
    refine ⟨s', ids, h1, ?_, ?_⟩
    · rw [h2]
      simp [members]
      decide
    · simpa using h4⟩

/-- Counterexample to C2: client 0 joins `r1` twice, then client 1 joins `r1`; the
queue of client 0 does not grow by exactly one `_new_peer` envelope (it gets two). -/
theorem join_notification_counterexample :
    ¬ ∃ (marshal : JVal → Except String Bytes) (s s' : State),
      run marshal ([0, 0].map (joinEvent "r1"))
        (main (fun p => Client.mk (toString p) false [] "")) = Outcome.ok s ∧
      HandleEvent marshal s 1 "__join" (mapLit [("room", JVal.str "r1")]) = Outcome.ok s' ∧
      (s'.heap 0).send = (s.heap 0).send ++ [encode marshal (newPeerMsg "1")] := by
  rintro ⟨marshal, s, s', hrun, hjoin, hsend⟩
  obtain ⟨_, i1, m1, _⟩ := run_ok marshal _ _ _ hrun
  have hm : members s "r1" = [0, 0] := by
    rw [m1 "r1", joiners_joinEvent]
    simp [members, main]
  rw [handleEvent_join] at hjoin
  obtain ⟨_, _, _, _, _, h2⟩ := handleJoin_ok marshal s s' 1
    (mapLit [("room", JVal.str "r1")]) "r1" (by simp [mapLit, List.lookup]) hjoin
  have hn : notified s 1 [0, 0] = [0, 0] := by
    simp only [notified, i1]
    decide
  rw [h2 0, hm, hn] at hsend
  have hlen := congrArg List.length hsend
  simp at hlen

/-- C2 (amended): after a sequence of joins to room `R` from the state of `main`
that all returned, a join by `N` that finds room in the queues it sends to puts, on
the queue of each client whose id differs from the id of `N`, one
`_new_peer{socketId: N}` per entry the client has in the member list of `R` at that
moment (one entry per earlier join): exactly one when it joined once. -/
theorem join_notifies_each_entry (marshal : JVal → Except String Bytes) (heap : Ptr → Client)
    (R : String) (pre : List Ptr) (N m : Ptr) (s : State)
    (hid : (heap m).id ≠ (heap N).id)
    (hrun : run marshal (pre.map (joinEvent R)) (main heap) = Outcome.ok s)
    (hroom : JoinHasRoom s N R) :
    members s R = pre ∧
    ∃ s', HandleEvent marshal s N "__join" (mapLit [("room", JVal.str R)]) = Outcome.ok s' ∧
      (s'.heap m).send = (s.heap m).send
        ++ List.replicate (pre.count m) (encode marshal (newPeerMsg (heap N).id)) ∧
      (pre.count m = 1 →
        (s'.heap m).send = (s.heap m).send ++ [encode marshal (newPeerMsg (heap N).id)]) ∧
      IsEnvelope (newPeerMsg (heap N).id) "_new_peer" [("socketId", JVal.str (heap N).id)] := by
  obtain ⟨_, i1, m1, _⟩ := run_ok marshal _ _ _ hrun
  have hm : members s R = pre := by
    rw [m1 R, joiners_joinEvent]
    simp [members, main]
  obtain ⟨s', e2, _, _, _, h2⟩ := handleJoin_room marshal s N
    (mapLit [("room", JVal.str R)]) R (by simp [mapLit, List.lookup]) hroom
  have hidm : (s.heap m).id = (heap m).id := i1 m
  have hidN : (s.heap N).id = (heap N).id := i1 N
  have hcount : (notified s N pre).count m = pre.count m := by
    unfold notified
    apply List.count_filter
    simp [hidm, hidN, Ne.symm hid]
  have hmN : m ≠ N := by
    intro h; subst h; exact hid rfl
  have hsend : (s'.heap m).send = (s.heap m).send
      ++ List.replicate (pre.count m) (encode marshal (newPeerMsg (heap N).id)) := by
    rw [h2 m, hm, hcount, hidN]
    simp [hmN]
  refine ⟨hm, s', by rw [handleEvent_join]; exact e2, hsend, ?_,
    isEnvelope_mk _ _ (by simp)⟩
  intro h1
  rw [hsend, h1]
  rfl

/-- Witness for C2 (amended): client 0 joined twice before client 1 joins, with an
encoder that encodes every value as the empty message. -/
theorem join_notifies_each_entry_witness :
    (Client.mk (toString (0 : Ptr)) false [] "").id
        ≠ (Client.mk (toString (1 : Ptr)) false [] "").id ∧
    ∃ s, run (fun _ => Except.ok []) ([0, 0].map (joinEvent "r1"))
        (main (fun p => Client.mk (toString p) false [] "")) = Outcome.ok s ∧
      JoinHasRoom s 1 "r1" ∧
      ∃ s', HandleEvent (fun _ => Except.ok []) s 1 "__join"
          (mapLit [("room", JVal.str "r1")]) = Outcome.ok s' ∧
        (s'.heap 0).send = (s.heap 0).send ++ [[], []] := by
  have hroom : JoinHasRoom (run (fun _ => Except.ok []) ([0, 0].map (joinEvent "r1"))
      (main (fun p => Client.mk (toString p) false [] ""))).state 1 "r1" := by
    rw [joinHasRoom_iff]
    refine ⟨fun q hq => ?_, by decide⟩
    have hn : notified (run (fun _ => Except.ok []) ([0, 0].map (joinEvent "r1"))
        (main (fun p => Client.mk (toString p) false [] ""))).state 1
        (members (run (fun _ => Except.ok []) ([0, 0].map (joinEvent "r1"))
          (main (fun p => Client.mk (toString p) false [] ""))).state "r1") = [0, 0] := by
      decide
    rw [hn] at hq ⊢
    have hq0 : q = 0 := by simpa using hq
    subst hq0
    decide
  obtain ⟨_, s', h1, h2, _⟩ := join_notifies_each_entry (fun _ => Except.ok [])
    (fun p => Client.mk (toString p) false [] "") "r1" [0, 0] 1 0 _ (by decide) rfl hroom
  exact ⟨by decide, _, rfl, hroom, s', h1, h2⟩

/-- Counterexample to C3: in the state `stalled` client 1 sends `__offer` with
`socketId` `0`, the id of the registered client 0. The handler waits at the send to
client 0, whose channel is full: for no encoder does it return, and nothing is
sent. -/
theorem forward_counterexample :
    ¬ ∃ marshal : JVal → Except String Bytes,
      (∃ s', HandleEvent marshal stalled 1 "__offer"
        (mapLit [("socketId", JVal.str "0"), ("sdp", JVal.str "X")]) = Outcome.ok s') ∨
      (HandleEvent marshal stalled 1 "__offer"
        (mapLit [("socketId", JVal.str "0"), ("sdp", JVal.str "X")])).state.sent ≠ [] := by
  rintro ⟨marshal, h⟩
  obtain ⟨s1, he, h3, _⟩ := stalled_offer marshal
  rw [he] at h
  rcases h with ⟨s', h⟩ | h
  · cases h
  · exact h h3

/-- C3 (amended): for `__ice_candidate`, `__offer` and `__answer` from `c` with
`data.socketId = t`, `t` the id of a registered client, when the queue of the client
`getClient` returns for `t` has room: the handler returns, exactly one message is
sent, to that client, and the `data.socketId` of the envelope it encodes is the id
of `c`, whatever else `data` holds. -/
theorem forward_carries_sender_id (marshal : JVal → Except String Bytes) (s : State) (c : Ptr)
    (eventName : String) (data : JMap) (t : String) (hev : IsForwardEvent eventName)
    (hd : data "socketId" = some (JVal.str t))
    (hreg : ∃ p ∈ s.clients, (s.heap p).id = t)
    (hroom : ∀ cp, getClient s t = some cp → (s.heap cp).send.length < sendCap) :
    ∃ cp env s', getClient s t = some cp ∧
      HandleEvent marshal s c eventName data = Outcome.ok s' ∧
      s'.sent = s.sent ++ [(cp, encode marshal env)] ∧
      (s'.heap cp).send = (s.heap cp).send ++ [encode marshal env] ∧
      (∀ q, q ≠ cp → (s'.heap q).send = (s.heap q).send) ∧
      (env.get "data").bind (fun d => d.get "socketId") = some (JVal.str (s.heap c).id) := by
  obtain ⟨cp, hget, _, _⟩ := getClient_of_registered s t hreg
  obtain ⟨notFound, received, hfw⟩ := handleEvent_forward marshal s c eventName data hev
  obtain ⟨s', h0, _, _, h3, h4⟩ := forward_found marshal
    (forwardMsg eventName data (s.heap c).id) notFound received s c data t cp hd hget
    (hroom cp hget)
  refine ⟨cp, forwardMsg eventName data (s.heap c).id, s', hget, by rw [hfw]; exact h0, h3,
    ?_, ?_, ?_⟩
  · rw [h4 cp]; simp
  · intro q hq
    rw [h4 q]; simp [hq]
  · rcases hev with h | h | h <;> subst h <;>
      simp [forwardMsg, iceCandidateMsg, offerMsg, answerMsg, JVal.get, mapLit, List.lookup]

/-- Witness for C3 (amended): an offer whose data also carries a key `you`, to a
client with an empty queue. -/
theorem forward_carries_sender_id_witness :
    (IsForwardEvent "__offer" ∧
      mapLit [("socketId", JVal.str "0"), ("you", JVal.str "0")] "socketId"
        = some (JVal.str "0") ∧
      (∃ p ∈ [0, 1], (Client.mk (toString p) false [] "").id = "0") ∧
      ∀ cp, getClient (State.mk [0, 1] (fun _ => none)
          (fun p => Client.mk (toString p) false [] "") [] []) "0" = some cp →
        ((State.mk [0, 1] (fun _ => none)
          (fun p => Client.mk (toString p) false [] "") [] []).heap cp).send.length
            < sendCap) ∧
    ∀ marshal : JVal → Except String Bytes,
      ∃ cp env s', getClient (State.mk [0, 1] (fun _ => none)
          (fun p => Client.mk (toString p) false [] "") [] []) "0" = some cp ∧
        HandleEvent marshal (State.mk [0, 1] (fun _ => none)
          (fun p => Client.mk (toString p) false [] "") [] []) 1 "__offer"
          (mapLit [("socketId", JVal.str "0"), ("you", JVal.str "0")]) = Outcome.ok s' ∧
        s'.sent = [(cp, encode marshal env)] ∧
        (env.get "data").bind (fun d => d.get "socketId") = some (JVal.str "1") :=
  ⟨⟨Or.inr (Or.inl rfl), by simp [mapLit, List.lookup], ⟨0, by simp, by decide⟩,
      fun _ _ => by simp [sendCap]⟩,
    fun marshal => by
    obtain ⟨cp, env, s', h1, h2, h3, _, _, h6⟩ := forward_carries_sender_id marshal
      (State.mk [0, 1] (fun _ => none) (fun p => Client.mk (toString p) false [] "") [] [])
      1 "__offer" (mapLit [("socketId", JVal.str "0"), ("you", JVal.str "0")]) "0"
      (Or.inr (Or.inl rfl)) (by simp [mapLit, List.lookup]) ⟨0, by simp, by decide⟩
      (fun _ _ => by simp [sendCap])
    refine ⟨cp, env, s', h1, h2, by simpa using h3, ?_⟩
    rw [h6]
    rfl⟩

/-- C4: for `__ice_candidate`, `__offer` and `__answer` whose `data.socketId` is a
string that is the id of no registered client, the handler returns normally, sends
nothing, and leaves `clients`, the rooms and every client record unchanged. -/
theorem forward_unknown_target_dropped (marshal : JVal → Except String Bytes) (s : State)
    (c : Ptr) (eventName : String) (data : JMap) (t : String) (hev : IsForwardEvent eventName)
    (hd : data "socketId" = some (JVal.str t))
    (hun : ∀ p ∈ s.clients, (s.heap p).id ≠ t) :
    ∃ s', HandleEvent marshal s c eventName data = Outcome.ok s' ∧
      s'.sent = s.sent ∧ s'.heap = s.heap ∧ s'.clients = s.clients ∧ s'.rooms = s.rooms := by
  obtain ⟨notFound, received, hfw⟩ := handleEvent_forward marshal s c eventName data hev
  refine ⟨logPrintf (logPrintf s notFound []) received [LogArg.str (s.heap c).id], ?_,
    rfl, rfl, rfl, rfl⟩
  rw [hfw]
  exact forward_missing marshal _ notFound received s c data t hd
    (getClient_of_unregistered s t hun)

/-- Witness for C4: an answer addressed to an id nobody has. -/
theorem forward_unknown_target_dropped_witness :
    (IsForwardEvent "__answer" ∧
      mapLit [("socketId", JVal.str "7"), ("sdp", JVal.str "X")] "socketId"
        = some (JVal.str "7") ∧
      ∀ p ∈ [0, 1], (Client.mk (toString p) false [] "").id ≠ "7") ∧
    ∀ marshal : JVal → Except String Bytes,
      ∃ s', HandleEvent marshal (State.mk [0, 1] (fun _ => none)
          (fun p => Client.mk (toString p) false [] "") [] []) 1 "__answer"
          (mapLit [("socketId", JVal.str "7"), ("sdp", JVal.str "X")]) = Outcome.ok s' ∧
        s'.sent = [] :=
  ⟨⟨Or.inr (Or.inr rfl), by simp [mapLit, List.lookup], by decide⟩,
    fun marshal => by
    obtain ⟨s', h1, h2, _⟩ := forward_unknown_target_dropped marshal
      (State.mk [0, 1] (fun _ => none) (fun p => Client.mk (toString p) false [] "") [] [])
      1 "__answer" (mapLit [("socketId", JVal.str "7"), ("sdp", JVal.str "X")]) "7"
      (Or.inr (Or.inr rfl)) (by simp [mapLit, List.lookup]) (by decide)
    exact ⟨s', h1, h2⟩⟩

/-- C5: two clients `A`, `B` with distinct ids registered by `serveWs` on the state
of `main`; `A` joins `r1`, `B` joins `r1`, `B` sends `__offer {socketId: A, sdp: "X"}`.
Then the queue of `A` holds `_peers{connections:[],you:A}`, `_new_peer{socketId:B}`,
`_offer{sdp:"X",socketId:B}` in this order and the queue of `B` holds
`_peers{connections:[A],you:B}`. -/
theorem scenario_two_peers (marshal : JVal → Except String Bytes) (heap : Ptr → Client)
    (pA pB : Ptr) (a b : String) (hp : pA ≠ pB) (hab : a ≠ b) :
    ∃ s3, run marshal
        [joinEvent "r1" pA, joinEvent "r1" pB,
          Event.mk pB "__offer" (mapLit [("socketId", JVal.str a), ("sdp", JVal.str "X")])]
        (serveWs (serveWs (main heap) pA a) pB b) = Outcome.ok s3 ∧
      (s3.heap pA).send =
        [encode marshal (JVal.obj (mapLit [("eventName", JVal.str "_peers"),
            ("data", JVal.obj (mapLit [("connections", JVal.arr []), ("you", JVal.str a)]))])),
          encode marshal (JVal.obj (mapLit [("eventName", JVal.str "_new_peer"),
            ("data", JVal.obj (mapLit [("socketId", JVal.str b)]))])),
          encode marshal (JVal.obj (mapLit [("eventName", JVal.str "_offer"),
            ("data", JVal.obj (mapLit [("sdp", JVal.str "X"), ("socketId", JVal.str b)]))]))] ∧
      (s3.heap pB).send =
        [encode marshal (JVal.obj (mapLit [("eventName", JVal.str "_peers"),
            ("data", JVal.obj (mapLit [("connections", JVal.arr [JVal.str a]),
              ("you", JVal.str b)]))]))] := by
  have hp' : pB ≠ pA := Ne.symm hp
  generalize hs0 : serveWs (serveWs (main heap) pA a) pB b = s0
  have c0 : s0.clients = [pA, pB] := by
    rw [← hs0]; simp [serveWs, main]
  have r0 : s0.rooms "r1" = none := by
    rw [← hs0]; simp [serveWs, main]
  have hA0 : s0.heap pA = Client.mk a false [] "" := by
    rw [← hs0]; simp [serveWs, main, Function.update_noteq hp]
  have hB0 : s0.heap pB = Client.mk b false [] "" := by
    rw [← hs0]; simp [serveWs, main]
  -- A joins
  have m0 : members s0 "r1" = [] := by simp [members, r0]
  have hroom0 : JoinHasRoom s0 pA "r1" := by
    rw [joinHasRoom_iff, m0]
    refine ⟨fun q hq => by simp [notified] at hq, ?_⟩
    rw [hA0]
    simp [sendCap]
  obtain ⟨s1, e1, c1, r1, _, h1⟩ := handleJoin_room marshal s0 pA
    (mapLit [("room", JVal.str "r1")]) "r1" (by simp [mapLit, List.lookup]) hroom0
  rw [m0] at r1 h1
  have hA1 : s1.heap pA = Client.mk a false [encode marshal (peersMsg [] a)] "r1" := by
    rw [h1 pA, hA0]; simp [notified]
  have hB1 : s1.heap pB = Client.mk b false [] "" := by
    rw [h1 pB, hB0]; simp [notified, hp']
  have m1 : members s1 "r1" = [pA] := by simp [members, r1]
  -- B joins
  have n1 : notified s1 pB [pA] = [pA] := by
    simp [notified, hA1, hB1, Ne.symm hab]
  have hroom1 : JoinHasRoom s1 pB "r1" := by
    rw [joinHasRoom_iff, m1]
    refine ⟨fun q hq => ?_, ?_⟩
    · rw [n1] at hq ⊢
      have hq' : q = pA := by simpa using hq
      subst hq'
      rw [hA1]
      simp [sendCap]
    · rw [hB1]
      simp [sendCap]
  obtain ⟨s2, e2, c2, _, _, h2⟩ := handleJoin_room marshal s1 pB
    (mapLit [("room", JVal.str "r1")]) "r1" (by simp [mapLit, List.lookup]) hroom1
  rw [m1, n1] at h2
  have hA2 : s2.heap pA = Client.mk a false
      [encode marshal (peersMsg [] a), encode marshal (newPeerMsg b)] "r1" := by
    rw [h2 pA, hA1, hB1]; simp [hp]
  have hB2 : s2.heap pB = Client.mk b false [encode marshal (peersMsg [a] b)] "r1" := by
    rw [h2 pB]; simp [hA1, hB1, hp']
  -- B sends the offer to A
  have g2 : getClient s2 a = some pA := by
    simp [getClient, c2, c1, c0, hA2]
  obtain ⟨s3, e3, _, _, _, h3⟩ := forward_found marshal
    (offerMsg (mapLit [("socketId", JVal.str a), ("sdp", JVal.str "X")]) (s2.heap pB).id)
    "Not found client in HandleOffer" "接收到来自 %s 的Offer" s2 pB
    (mapLit [("socketId", JVal.str a), ("sdp", JVal.str "X")]) a pA
    (by simp [mapLit, List.lookup]) g2 (by rw [hA2]; simp [sendCap])
  rw [← handleOffer_eq] at e3
  refine ⟨s3, ?_, ?_, ?_⟩
  · simp only [run, joinEvent, handleEvent_join, e1, e2]
    simp [HandleEvent, e3]
  · rw [h3 pA, hA2, hB2]
    simp [peersMsg, newPeerMsg, offerMsg, JVal.index, mapLit, List.lookup]
  · rw [h3 pB, hB2]
    simp [hp', peersMsg]

/-- Witness for C5: addresses 0 and 1 with ids `A` and `B`. -/
theorem scenario_two_peers_witness :
    ((0 : Ptr) ≠ 1 ∧ "A" ≠ "B") ∧
    ∀ marshal : JVal → Except String Bytes,
      ∃ s3, run marshal
          [joinEvent "r1" 0, joinEvent "r1" 1,
            Event.mk 1 "__offer" (mapLit [("socketId", JVal.str "A"), ("sdp", JVal.str "X")])]
          (serveWs (serveWs (main (fun _ => Client.mk "" false [] "")) 0 "A") 1 "B")
            = Outcome.ok s3 ∧
        (s3.heap 1).send =
          [encode marshal (JVal.obj (mapLit [("eventName", JVal.str "_peers"),
            ("data", JVal.obj (mapLit [("connections", JVal.arr [JVal.str "A"]),
              ("you", JVal.str "B")]))]))] :=
  ⟨by decide, fun marshal => by
    obtain ⟨s3, h1, _, h3⟩ := scenario_two_peers marshal (fun _ => Client.mk "" false [] "")
      0 1 "A" "B" (by decide) (by decide)
    exact ⟨s3, h1, h3⟩⟩

/-- Counterexample to C6: in the state `stalled` client 1 sends `__answer` with
`socketId` `0` and an `sdp`. The handler waits at the send to client 0, whose
channel is full: for no encoder does it return, and no `_answer` envelope is
sent. -/
theorem forwarded_envelope_counterexample :
    ¬ ∃ marshal : JVal → Except String Bytes,
      (∃ s', HandleEvent marshal stalled 1 "__answer"
        (mapLit [("socketId", JVal.str "0"), ("sdp", JVal.str "X")]) = Outcome.ok s') ∨
      (HandleEvent marshal stalled 1 "__answer"
        (mapLit [("socketId", JVal.str "0"), ("sdp", JVal.str "X")])).state.sent ≠ [] := by
  rintro ⟨marshal, h⟩
  obtain ⟨s1, e, h3, _⟩ := stalled_forward marshal
    (answerMsg (mapLit [("socketId", JVal.str "0"), ("sdp", JVal.str "X")]) (stalled.heap 1).id)
    "Not found client in HandleAnswer" "接收到来自 %s 的Answer"
    (mapLit [("socketId", JVal.str "0"), ("sdp", JVal.str "X")]) rfl
  rw [← handleAnswer_eq] at e
  have he : HandleEvent marshal stalled 1 "__answer"
      (mapLit [("socketId", JVal.str "0"), ("sdp", JVal.str "X")]) = Outcome.blocked s1 := by
    rw [← e]
    simp [HandleEvent]
  rw [he] at h
  rcases h with ⟨s', h⟩ | h
  · cases h
  · exact h h3

/-- C6 (amended): for a sender `c` and a registered target id `t` whose client has
room in its queue, the handler returns and `__offer` sends the
envelope `_offer` with exactly `sdp` and `socketId`, `__answer` the envelope
`_answer` with exactly `sdp` and `socketId`, `__ice_candidate` the envelope
`_ice_candidate` with exactly `label`, `candidate` and `socketId`; `socketId` is
the id of `c`, the other fields are the inbound values (nil for an absent key). -/
theorem forwarded_envelope_fields (marshal : JVal → Except String Bytes) (s : State) (c : Ptr)
    (data : JMap) (t : String) (hd : data "socketId" = some (JVal.str t))
    (hreg : ∃ p ∈ s.clients, (s.heap p).id = t)
    (hroom : ∀ cp, getClient s t = some cp → (s.heap cp).send.length < sendCap) :
    ∃ cp, getClient s t = some cp ∧
      (∃ s' env, HandleEvent marshal s c "__offer" data = Outcome.ok s' ∧
        s'.sent = s.sent ++ [(cp, encode marshal env)] ∧
        IsEnvelope env "_offer"
          [("sdp", (data "sdp").getD JVal.null), ("socketId", JVal.str (s.heap c).id)]) ∧
      (∃ s' env, HandleEvent marshal s c "__answer" data = Outcome.ok s' ∧
        s'.sent = s.sent ++ [(cp, encode marshal env)] ∧
        IsEnvelope env "_answer"
          [("sdp", (data "sdp").getD JVal.null), ("socketId", JVal.str (s.heap c).id)]) ∧
      (∃ s' env, HandleEvent marshal s c "__ice_candidate" data = Outcome.ok s' ∧
        s'.sent = s.sent ++ [(cp, encode marshal env)] ∧
        IsEnvelope env "_ice_candidate"
          [("label", (data "label").getD JVal.null),
            ("candidate", (data "candidate").getD JVal.null),
            ("socketId", JVal.str (s.heap c).id)]) := by
  obtain ⟨cp, hget, _, _⟩ := getClient_of_registered s t hreg
  refine ⟨cp, hget, ?_, ?_, ?_⟩
  · obtain ⟨s', h0, _, _, h3, _⟩ := forward_found marshal (offerMsg data (s.heap c).id)
      "Not found client in HandleOffer" "接收到来自 %s 的Offer" s c data t cp hd hget
      (hroom cp hget)
    refine ⟨s', offerMsg data (s.heap c).id, ?_, h3, isEnvelope_mk _ _ (by simp)⟩
    rw [← h0, ← handleOffer_eq]
    simp [HandleEvent]
  · obtain ⟨s', h0, _, _, h3, _⟩ := forward_found marshal (answerMsg data (s.heap c).id)
      "Not found client in HandleAnswer" "接收到来自 %s 的Answer" s c data t cp hd hget
      (hroom cp hget)
    refine ⟨s', answerMsg data (s.heap c).id, ?_, h3, isEnvelope_mk _ _ (by simp)⟩
    rw [← h0, ← handleAnswer_eq]
    simp [HandleEvent]
  · obtain ⟨s', h0, _, _, h3, _⟩ := forward_found marshal
      (iceCandidateMsg data (s.heap c).id) "Not found client in HandleIceCandidate"
      "接收到来自 %s 的ICE Candidate" s c data t cp hd hget
      (hroom cp hget)
    refine ⟨s', iceCandidateMsg data (s.heap c).id, ?_, h3, isEnvelope_mk _ _ (by simp)⟩
    rw [← h0, ← handleIceCandidate_eq]
    simp [HandleEvent]

/-- Witness for C6 (amended): an offer with an `sdp` and one key that is not forwarded. -/
theorem forwarded_envelope_fields_witness :
    (mapLit [("socketId", JVal.str "0"), ("sdp", JVal.str "X"), ("extra", JVal.bool true)]
        "socketId" = some (JVal.str "0") ∧
      (∃ p ∈ [0, 1], (Client.mk (toString p) false [] "").id = "0") ∧
      ∀ cp, getClient (State.mk [0, 1] (fun _ => none)
          (fun p => Client.mk (toString p) false [] "") [] []) "0" = some cp →
        ((State.mk [0, 1] (fun _ => none)
          (fun p => Client.mk (toString p) false [] "") [] []).heap cp).send.length
            < sendCap) ∧
    ∀ marshal : JVal → Except String Bytes,
      ∃ s' env, HandleEvent marshal (State.mk [0, 1] (fun _ => none)
          (fun p => Client.mk (toString p) false [] "") [] []) 1 "__offer"
          (mapLit [("socketId", JVal.str "0"), ("sdp", JVal.str "X"),
            ("extra", JVal.bool true)]) = Outcome.ok s' ∧
        s'.sent = [(0, encode marshal env)] ∧
        IsEnvelope env "_offer" [("sdp", JVal.str "X"), ("socketId", JVal.str "1")] :=
  ⟨⟨by simp [mapLit, List.lookup], ⟨0, by simp, by decide⟩, fun _ _ => by simp [sendCap]⟩,
    fun marshal => by
    obtain ⟨cp, hget, ⟨s', env, h1, h2, h3⟩, _, _⟩ := forwarded_envelope_fields marshal
      (State.mk [0, 1] (fun _ => none) (fun p => Client.mk (toString p) false [] "") [] [])
      1 (mapLit [("socketId", JVal.str "0"), ("sdp", JVal.str "X"), ("extra", JVal.bool true)])
      "0" (by simp [mapLit, List.lookup]) ⟨0, by simp, by decide⟩
      (fun _ _ => by simp [sendCap])
    have hcp : cp = 0 := by
      have h : getClient (State.mk [0, 1] (fun _ => none)
          (fun p => Client.mk (toString p) false [] "") [] []) "0" = some 0 := by decide
      rw [h] at hget
      exact (Option.some.inj hget).symm
    subst hcp
    refine ⟨s', env, h1, by simpa using h2, ?_⟩
    have e1 : (mapLit [("socketId", JVal.str "0"), ("sdp", JVal.str "X"),
        ("extra", JVal.bool true)] "sdp").getD JVal.null = JVal.str "X" := by
      simp [mapLit, List.lookup]
    have e2 : ((State.mk [0, 1] (fun _ => none)
        (fun p => Client.mk (toString p) false [] "") [] []).heap 1).id = "1" := by decide
    rw [e1, e2] at h3
    exact h3⟩

/-- Counterexample to C7: an `__offer` whose data has no `socketId` key does not
return normally. -/
theorem forward_without_socketId_counterexample :
    ¬ ∃ (marshal : JVal → Except String Bytes) (s' : State),
      HandleEvent marshal (State.mk [0, 1] (fun _ => none)
        (fun p => Client.mk (toString p) false [] "") [] []) 1 "__offer"
        (mapLit [("sdp", JVal.str "X")]) = Outcome.ok s' := by
  rintro ⟨marshal, s', h⟩
  simp [HandleEvent, handleOffer, asString, mapLit, List.lookup] at h

/-- C7 (amended): for `__ice_candidate`, `__offer` and `__answer` whose data has no
`socketId` key, the handler panics at its first statement, the type assertion
`data["socketId"].(string)`: the state at the panic is the state it was given, so
nothing was sent or logged and `clients` and the rooms are unchanged. -/
theorem forward_without_socketId_panics (marshal : JVal → Except String Bytes) (s : State)
    (c : Ptr) (eventName : String) (data : JMap) (hev : IsForwardEvent eventName)
    (hd : data "socketId" = none) :
    HandleEvent marshal s c eventName data = Outcome.panic s := by
  obtain ⟨notFound, received, hfw⟩ := handleEvent_forward marshal s c eventName data hev
  rw [hfw]
  exact forward_panic marshal _ notFound received s c data (by rw [hd]; rfl)

/-- Witness for C7 (amended): an `__ice_candidate` with empty data. -/
theorem forward_without_socketId_panics_witness :
    (IsForwardEvent "__ice_candidate" ∧ mapLit [] "socketId" = none) ∧
    ∀ (marshal : JVal → Except String Bytes) (s : State),
      HandleEvent marshal s 0 "__ice_candidate" (mapLit []) = Outcome.panic s :=
  ⟨⟨Or.inl rfl, rfl⟩, fun marshal s =>
    forward_without_socketId_panics marshal s 0 "__ice_candidate" (mapLit []) (Or.inl rfl) rfl⟩

/-- C8: a message that `json.Unmarshal` leaves as the nil map, or whose object has
no `eventName` key, takes the else branch of `readPump`: one log line, no call of
`HandleEvent`, no send, `clients`, rooms and client records unchanged, and the loop
goes on with the next read (the connection is not closed). -/
theorem undecodable_message_dropped (marshal : JVal → Except String Bytes)
    (unmarshal : Bytes → Option JMap) (s : State) (c : Ptr) (message : Bytes)
    (rest : List ReadResult)
    (h : unmarshal message = none ∨ ∃ m, unmarshal message = some m ∧ m "eventName" = none) :
    ∃ s', readPumpBody marshal unmarshal s c message = Outcome.ok s' ∧
      s' = logPrintf s "接收到来自%s的新消息：%s" [LogArg.str (s.heap c).id, LogArg.bytes message] ∧
      s'.sent = s.sent ∧ s'.heap = s.heap ∧ s'.clients = s.clients ∧ s'.rooms = s.rooms ∧
      readPump marshal unmarshal c (ReadResult.message message :: rest) s
        = readPump marshal unmarshal c rest s' := by
  have hb : readPumpBody marshal unmarshal s c message = Outcome.ok
      (logPrintf s "接收到来自%s的新消息：%s" [LogArg.str (s.heap c).id, LogArg.bytes message]) := by
    unfold readPumpBody
    rcases h with h | ⟨m, h, hm⟩
    · simp [h]
    · simp [h, hm]
  refine ⟨_, hb, rfl, rfl, rfl, rfl, rfl, ?_⟩
  rw [readPump, hb]

/-- Witness for C8: a decoder that decodes nothing, and two reads. -/
theorem undecodable_message_dropped_witness :
    ((fun _ : Bytes => (none : Option JMap)) [123] = none ∨
      ∃ m, (fun _ : Bytes => (none : Option JMap)) [123] = some m ∧ m "eventName" = none) ∧
    ∀ (marshal : JVal → Except String Bytes) (s : State),
      ∃ s', readPumpBody marshal (fun _ => none) s 0 [123] = Outcome.ok s' ∧
        s'.sent = s.sent ∧
        readPump marshal (fun _ => none) 0
            [ReadResult.message [123], ReadResult.message [125]] s
          = readPump marshal (fun _ => none) 0 [ReadResult.message [125]] s' :=
  ⟨Or.inl rfl, fun marshal s => by
    obtain ⟨s', h1, _, h3, _, _, _, h7⟩ := undecodable_message_dropped marshal
      (fun _ => none) s 0 [123] [ReadResult.message [125]] (Or.inl rfl)
    exact ⟨s', h1, h3, h7⟩⟩

/-- C9: for an event name other than `__join`, `__ice_candidate`, `__offer` and
`__answer`, `HandleEvent` returns the state it was given: no send, no change to
`clients`, to any room or to any client record. -/
theorem unknown_event_ignored (marshal : JVal → Except String Bytes) (s : State) (c : Ptr)
    (eventName : String) (data : JMap)
    (h1 : eventName ≠ "__join") (h2 : eventName ≠ "__ice_candidate")
    (h3 : eventName ≠ "__offer") (h4 : eventName ≠ "__answer") :
    HandleEvent marshal s c eventName data = Outcome.ok s := by
  simp [HandleEvent, h1, h2, h3, h4]

/-- Witness for C9: the event name `__leave`. -/
theorem unknown_event_ignored_witness :
    ("__leave" ≠ "__join" ∧ "__leave" ≠ "__ice_candidate" ∧ "__leave" ≠ "__offer" ∧
      "__leave" ≠ "__answer") ∧
    ∀ (marshal : JVal → Except String Bytes) (s : State),
      HandleEvent marshal s 0 "__leave" (mapLit []) = Outcome.ok s :=
  ⟨by decide, fun marshal s =>
    unknown_event_ignored marshal s 0 "__leave" (mapLit []) (by decide) (by decide)
      (by decide) (by decide)⟩

/-- Counterexample to C10: in the state `stalled` client 1 sends `__join` for `r1`,
whose member list is `[2, 0]`. The join waits at the `_new_peer` send to client 0,
whose channel is full, before it appends the joiner: for no encoder does it return,
and the member list of `r1` stays `[2, 0]`. -/
theorem join_appends_counterexample :
    ¬ ∃ marshal : JVal → Except String Bytes,
      (∃ s', HandleEvent marshal stalled 1 "__join" (mapLit [("room", JVal.str "r1")])
        = Outcome.ok s') ∨
      (HandleEvent marshal stalled 1 "__join"
        (mapLit [("room", JVal.str "r1")])).state.rooms "r1" ≠ some [2, 0] := by
  rintro ⟨marshal, h⟩
  obtain ⟨s1, e, h2, _, _⟩ := stalled_join marshal
  rw [handleEvent_join, e] at h
  rcases h with ⟨s', h⟩ | h
  · cases h
  · apply h
    show s1.rooms "r1" = some [2, 0]
    rw [h2]
    rfl

/-- C10 (amended): when every client the join sends to has room in its queue,
`__join {room: r}` for `c` returns, and after it the member list of `r` is its previous
list (empty without entry) with `c` appended at the end, the room field of `c` is
`r`, and every other room is unchanged; `c` occurs once more than before, also
when it was a member already. -/
theorem join_appends_member (marshal : JVal → Except String Bytes) (s : State) (c : Ptr)
    (data : JMap) (r : String) (hr : data "room" = some (JVal.str r))
    (hroom : JoinHasRoom s c r) :
    ∃ s', HandleEvent marshal s c "__join" data = Outcome.ok s' ∧
      s'.rooms r = some (members s r ++ [c]) ∧
      (s.rooms r = none → s'.rooms r = some [c]) ∧
      (s'.heap c).room = r ∧
      (∀ r', r' ≠ r → s'.rooms r' = s.rooms r') ∧
      (members s' r).count c = (members s r).count c + 1 := by
  obtain ⟨s', h0, _, h2, _, h4⟩ := handleJoin_room marshal s c data r hr hroom
  refine ⟨s', by rw [handleEvent_join]; exact h0, ?_, ?_, ?_, ?_, ?_⟩
  · rw [h2]; simp
  · intro hnone
    rw [h2]; simp [members, hnone]
  · rw [h4 c]; simp
  · intro r' hne
    rw [h2, Function.update_noteq hne]
  · simp [members, h2]

/-- Witness for C10 (amended): a second join of the same client to its room, its
queue empty. -/
theorem join_appends_member_witness :
    (mapLit [("room", JVal.str "r1")] "room" = some (JVal.str "r1") ∧
      JoinHasRoom (State.mk [0] (fun r => if r = "r1" then some [0] else none)
        (fun p => Client.mk (toString p) false [] "r1") [] []) 0 "r1") ∧
    ∀ marshal : JVal → Except String Bytes,
      ∃ s', HandleEvent marshal
          (State.mk [0] (fun r => if r = "r1" then some [0] else none)
            (fun p => Client.mk (toString p) false [] "r1") [] [])
          0 "__join" (mapLit [("room", JVal.str "r1")]) = Outcome.ok s' ∧
        s'.rooms "r1" = some [0, 0] :=
  ⟨⟨by simp [mapLit, List.lookup],
      joinHasRoom_of_short _ 0 "r1" 0 (fun _ => Nat.le_refl 0) (by decide)⟩,
    fun marshal => by
    obtain ⟨s', h1, h2, _⟩ := join_appends_member marshal
      (State.mk [0] (fun r => if r = "r1" then some [0] else none)
        (fun p => Client.mk (toString p) false [] "r1") [] [])
      0 (mapLit [("room", JVal.str "r1")]) "r1" (by simp [mapLit, List.lookup])
      (joinHasRoom_of_short _ 0 "r1" 0 (fun _ => Nat.le_refl 0) (by decide))
    exact ⟨s', h1, by simpa [members] using h2⟩⟩

/-- Counterexample to C11: in the state `stalled` client 1 sends `__join` for `r1`,
whose member list is `[2, 0]`. The join enqueues the `_new_peer` for client 2 and
waits at the send to client 0, whose channel is full: for no encoder does it
return, its only and so its last enqueue is a `_new_peer`, and no `_peers` is
enqueued. -/
theorem join_order_counterexample :
    ¬ ∃ marshal : JVal → Except String Bytes,
      (∃ s', HandleEvent marshal stalled 1 "__join" (mapLit [("room", JVal.str "r1")])
        = Outcome.ok s') ∨
      (HandleEvent marshal stalled 1 "__join"
        (mapLit [("room", JVal.str "r1")])).state.sent
          ≠ [(2, encode marshal (newPeerMsg "1"))] := by
  rintro ⟨marshal, h⟩
  obtain ⟨s1, e, _, h3, _⟩ := stalled_join marshal
  rw [handleEvent_join, e] at h
  rcases h with ⟨s', h⟩ | h
  · cases h
  · exact h h3

/-- C11 (amended): the sends performed by one `__join {room: r}` for `c` are an
initial part of the sequence made of the `_new_peer` messages, one per notified
member entry in member order, followed by the single `_peers` message to `c`. When
every client the join sends to has room in its queue the join returns and performs
them all, so the `_peers` send is its last; otherwise it waits at a send and no
`_peers` is sent. -/
theorem join_notifies_before_reply (marshal : JVal → Except String Bytes) (s : State)
    (c : Ptr) (data : JMap) (r : String) (hr : data "room" = some (JVal.str r)) :
    ∃ new ids,
      ids = ((members s r).filter
              (fun p => decide ((s.heap c).id ≠ (s.heap p).id))).map (fun p => (s.heap p).id) ∧
      (HandleEvent marshal s c "__join" data).state.sent = s.sent ++ new ∧
      new <+: ((members s r).filter (fun p => decide ((s.heap c).id ≠ (s.heap p).id))).map
            (fun p => (p, encode marshal (newPeerMsg (s.heap c).id)))
        ++ [(c, encode marshal (peersMsg ids (s.heap c).id))] ∧
      (JoinHasRoom s c r →
        ∃ s', HandleEvent marshal s c "__join" data = Outcome.ok s' ∧
          s'.sent = s.sent
            ++ ((members s r).filter (fun p => decide ((s.heap c).id ≠ (s.heap p).id))).map
                (fun p => (p, encode marshal (newPeerMsg (s.heap c).id)))
            ++ [(c, encode marshal (peersMsg ids (s.heap c).id))] ∧
          s'.sent.getLast? = some (c, encode marshal (peersMsg ids (s.heap c).id))) ∧
      (¬ JoinHasRoom s c r →
        (∃ s1, HandleEvent marshal s c "__join" data = Outcome.blocked s1) ∧
        new <+: ((members s r).filter (fun p => decide ((s.heap c).id ≠ (s.heap p).id))).map
            (fun p => (p, encode marshal (newPeerMsg (s.heap c).id)))) ∧
      IsEnvelope (newPeerMsg (s.heap c).id) "_new_peer"
        [("socketId", JVal.str (s.heap c).id)] ∧
      IsEnvelope (peersMsg ids (s.heap c).id) "_peers"
        [("connections", JVal.arr (ids.map JVal.str)), ("you", JVal.str (s.heap c).id)] := by
  obtain ⟨new, h1, h2, _, _, h5⟩ := handleJoin_sends marshal s c data r hr
  refine ⟨new, _, rfl, by rw [handleEvent_join]; exact h1, h2, ?_, ?_,
    isEnvelope_mk _ _ (by simp), isEnvelope_peers _ _⟩
  · intro hroom
    obtain ⟨s', h0, _, _, h3, _⟩ := handleJoin_room marshal s c data r hr hroom
    refine ⟨s', by rw [handleEvent_join]; exact h0, ?_, ?_⟩
    · rw [h3]; rfl
    · rw [h3]
      simp [notified]
  · intro hfull
    have hnok : ∀ s', handleJoin marshal s c data ≠ Outcome.ok s' := by
      intro s' e
      exact hfull ((handleJoin_ok_iff marshal s c data r hr).mp ⟨s', e⟩)
    obtain ⟨s1, e1, hlen⟩ := h5 hnok
    refine ⟨⟨s1, by rw [handleEvent_join]; exact e1⟩, ?_⟩
    obtain ⟨rest, hrest⟩ := h2
    have hnew : new = (new ++ rest).take new.length := by simp
    rw [hnew, hrest, List.take_append_of_le_length (by simpa using hlen)]
    exact List.take_prefix _ _

/-- Witness for C11 (amended): client 2 joins a room whose members are 0 and 1, all
queues empty. -/
theorem join_notifies_before_reply_witness :
    mapLit [("room", JVal.str "r1")] "room" = some (JVal.str "r1") ∧
    ∀ marshal : JVal → Except String Bytes,
      ∃ s', HandleEvent marshal
          (State.mk [0, 1, 2] (fun r => if r = "r1" then some [0, 1] else none)
            (fun p => Client.mk (toString p) false [] "") [] [])
          2 "__join" (mapLit [("room", JVal.str "r1")]) = Outcome.ok s' ∧
        s'.sent = [(0, encode marshal (newPeerMsg "2")), (1, encode marshal (newPeerMsg "2")),
          (2, encode marshal (peersMsg ["0", "1"] "2"))] :=
  ⟨by simp [mapLit, List.lookup], fun marshal => by
    obtain ⟨new, ids, h2, _, _, hok, _⟩ := join_notifies_before_reply marshal
      (State.mk [0, 1, 2] (fun r => if r = "r1" then some [0, 1] else none)
        (fun p => Client.mk (toString p) false [] "") [] [])
      2 (mapLit [("room", JVal.str "r1")]) "r1" (by simp [mapLit, List.lookup])
    obtain ⟨s', h1, h3, _⟩ := hok
      (joinHasRoom_of_short _ 2 "r1" 0 (fun _ => Nat.le_refl 0) (by decide))
    refine ⟨s', h1, ?_⟩
    have hf : List.filter (fun p : Ptr => decide (toString (2 : Ptr) ≠ toString p)) [0, 1]
        = [0, 1] := by decide
    have hids : ids = ["0", "1"] := by
      rw [h2]
      simp only [members, if_true, Option.getD_some, hf]
      decide
    rw [h3, hids]
    simp only [members, if_true, Option.getD_some, hf]
    rfl⟩

/-- C12: `serveWs` registers a record it has just allocated, under an id it has just
drawn with `uuid.NewV4()`: the address is not in `clients` and no registered client
has the id. The record is appended to `clients`; afterwards lookup of that id
returns the new record and lookup of any other id returns what it returned before.
Lookup reads the state only and returns nil exactly when no registered client has
the id. -/
theorem register_then_lookup (s : State) (p : Ptr) (id : String) (hfresh : p ∉ s.clients)
    (hid : ∀ q ∈ s.clients, (s.heap q).id ≠ id) :
    (serveWs s p id).clients = s.clients ++ [p] ∧
    ((serveWs s p id).heap p).id = id ∧
    getClient (serveWs s p id) id = some p ∧
    (∀ t, t ≠ id → getClient (serveWs s p id) t = getClient s t) ∧
    (∀ (s0 : State) (t : String),
      getClient s0 t = none ↔ ∀ q ∈ s0.clients, (s0.heap q).id ≠ t) := by
  refine ⟨by simp [serveWs], by simp [serveWs], ?_, ?_, ?_⟩
  · rw [getClient_serveWs s p id id hfresh, getClient_of_unregistered s id hid]
    simp
  · intro t ht
    rw [getClient_serveWs s p id t hfresh]
    simp [Ne.symm ht]
  · intro s0 t
    constructor
    · intro h q hq
      unfold getClient at h
      rw [List.find?_eq_none] at h
      simpa using h q hq
    · exact getClient_of_unregistered s0 t

/-- Witness for C12: a second registration with another id. -/
theorem register_then_lookup_witness :
    ((1 : Ptr) ∉ (serveWs (main (fun _ => Client.mk "" false [] "")) 0 "a").clients ∧
      ∀ q ∈ (serveWs (main (fun _ => Client.mk "" false [] "")) 0 "a").clients,
        ((serveWs (main (fun _ => Client.mk "" false [] "")) 0 "a").heap q).id ≠ "b") ∧
    getClient (serveWs (serveWs (main (fun _ => Client.mk "" false [] "")) 0 "a") 1 "b") "b"
      = some 1 :=
  ⟨⟨by simp [serveWs, main], by simp [serveWs, main]⟩,
    (register_then_lookup (serveWs (main (fun _ => Client.mk "" false [] "")) 0 "a") 1 "b"
      (by simp [serveWs, main]) (by simp [serveWs, main])).2.2.1⟩

/-- C14 (the code at a failing input): `readPump` never compares a message with
`maxMessageSize`; a 513-byte `__join` is decoded and handled like any other, the
client is appended to the room and the pump waits for the next read with the
connection open. -/
theorem oversized_message_is_handled :
    maxMessageSize < oversizedJoin.length ∧
    ∀ marshal : JVal → Except String Bytes,
      ∃ s', readPumpBody marshal (fun b => if b = oversizedJoin then some decodedJoin else none)
          (serveWs (main (fun _ => Client.mk "" false [] "")) 0 "a") 0 oversizedJoin
            = Outcome.ok s' ∧
        s'.rooms "r1" = some [0] ∧ (s'.heap 0).room = "r1" ∧
        (s'.heap 0).connClosed = false ∧
        readPump marshal (fun b => if b = oversizedJoin then some decodedJoin else none) 0
          [ReadResult.message oversizedJoin]
          (serveWs (main (fun _ => Client.mk "" false [] "")) 0 "a")
            = PumpOutcome.waiting s' := by
  have hlen : oversizedJoin.length = 513 := by
    rw [oversizedJoin, List.length_append, List.length_replicate]
    rfl
  refine ⟨by rw [hlen]; decide, fun marshal => ?_⟩
  obtain ⟨s', h0, _, h2, _, h4⟩ := handleJoin_room marshal
    (serveWs (main (fun _ => Client.mk "" false [] "")) 0 "a") 0
    (mapLit [("room", JVal.str "r1")]) "r1" (by simp [mapLit, List.lookup])
    (joinHasRoom_of_short _ 0 "r1" 0
      (fun q => by
        by_cases hq : q = 0
        · subst hq
          simp [serveWs, main]
        · simp [serveWs, main, Function.update_noteq hq])
      (by simp [members, serveWs, main, sendCap]))
  have hb : readPumpBody marshal (fun b => if b = oversizedJoin then some decodedJoin else none)
      (serveWs (main (fun _ => Client.mk "" false [] "")) 0 "a") 0 oversizedJoin
        = Outcome.ok s' := by
    rw [← h0, ← handleEvent_join]
    unfold readPumpBody
    simp only [if_pos rfl]
    rfl
  refine ⟨s', hb, ?_, ?_, ?_, ?_⟩
  · rw [h2]
    simp [members, serveWs, main]
  · rw [h4 0]
    simp
  · rw [h4 0]
    simp [serveWs, main]
  · rw [readPump, hb]
    rfl

/-- Counterexample to C15: client 0 joins `r1` and then `r2`; no state reached this
way has client 0 in the member list of at most one room. -/
theorem one_room_counterexample :
    ¬ ∃ (marshal : JVal → Except String Bytes) (s : State),
      run marshal [joinEvent "r1" 0, joinEvent "r2" 0]
        (main (fun p => Client.mk (toString p) false [] "")) = Outcome.ok s ∧
      ∀ r r', (0 : Ptr) ∈ members s r → (0 : Ptr) ∈ members s r' → r = r' := by
  rintro ⟨marshal, s, hrun, hone⟩
  obtain ⟨_, _, h3, _⟩ := run_ok marshal _ _ _ hrun
  have h1 : (0 : Ptr) ∈ members s "r1" := by
    rw [h3 "r1", List.mem_append]
    right
    rw [mem_joiners]
    exact ⟨joinEvent "r1" 0, by simp, rfl, rfl⟩
  have h2 : (0 : Ptr) ∈ members s "r2" := by
    rw [h3 "r2", List.mem_append]
    right
    rw [mem_joiners]
    exact ⟨joinEvent "r2" 0, by simp, rfl, rfl⟩
  exact absurd (hone "r1" "r2" h1 h2) (by decide)

/-- C15 (amended): in a state reached from the state of `main` by a sequence of
router events, a client is in the member list of exactly the rooms it sent a
`__join` for; so it is in at most one list when all its joins named one room. -/
theorem member_of_joined_rooms (marshal : JVal → Except String Bytes) (heap : Ptr → Client)
    (evs : List Event) (s : State) (hrun : run marshal evs (main heap) = Outcome.ok s) :
    (∀ c r, c ∈ members s r ↔
      ∃ e ∈ evs, e.client = c ∧ e.eventName = "__join" ∧
        e.data "room" = some (JVal.str r)) ∧
    (∀ c r0,
      (∀ e ∈ evs, e.client = c → e.eventName = "__join" →
        ∀ r, e.data "room" = some (JVal.str r) → r = r0) →
      ∀ r r', c ∈ members s r → c ∈ members s r' → r = r') := by
  obtain ⟨_, _, h3, _⟩ := run_ok marshal evs (main heap) s hrun
  have hmem : ∀ c r, c ∈ members s r ↔
      ∃ e ∈ evs, e.client = c ∧ e.eventName = "__join" ∧
        e.data "room" = some (JVal.str r) := by
    intro c r
    rw [h3 r]
    have h0 : members (main heap) r = [] := by simp [members, main]
    rw [h0, List.nil_append, mem_joiners]
    constructor
    · rintro ⟨e, he, hc, hj⟩
      exact ⟨e, he, hc, (joinRoom_eq_some e r).mp hj⟩
    · rintro ⟨e, he, hc, hj⟩
      exact ⟨e, he, hc, (joinRoom_eq_some e r).mpr hj⟩
  refine ⟨hmem, ?_⟩
  intro c r0 hall r r' hr hr'
  obtain ⟨e, he, hc, hn, hd⟩ := (hmem c r).mp hr
  obtain ⟨e', he', hc', hn', hd'⟩ := (hmem c r').mp hr'
  rw [hall e he hc hn r hd, hall e' he' hc' hn' r' hd']

/-- Witness for C15 (amended): the two joins of the counterexample, with an encoder
that encodes every value as the empty message. -/
theorem member_of_joined_rooms_witness :
    ∃ s, run (fun _ => Except.ok []) [joinEvent "r1" 0, joinEvent "r2" 0]
        (main (fun p => Client.mk (toString p) false [] "")) = Outcome.ok s ∧
      ((0 : Ptr) ∈ members s "r2" ↔
        ∃ e ∈ [joinEvent "r1" 0, joinEvent "r2" 0], e.client = 0 ∧ e.eventName = "__join" ∧
          e.data "room" = some (JVal.str "r2")) :=
  ⟨_, rfl, (member_of_joined_rooms (fun _ => Except.ok [])
    (fun p => Client.mk (toString p) false [] "") [joinEvent "r1" 0, joinEvent "r2" 0] _
    rfl).1 0 "r2"⟩

/-- C16: no event removes anything. For one event and for any sequence of events
(returning, stopped by a panic or waiting at a send), `clients` and every id are unchanged and each
room list before is a prefix of the list after; so a member stays a member. -/
theorem nothing_evicted (marshal : JVal → Except String Bytes) (s : State) :
    (∀ (c : Ptr) (eventName : String) (data : JMap),
      (HandleEvent marshal s c eventName data).state.clients = s.clients ∧
      (∀ q, ((HandleEvent marshal s c eventName data).state.heap q).id = (s.heap q).id) ∧
      (∀ r, members s r <+: members (HandleEvent marshal s c eventName data).state r)) ∧
    (∀ evs : List Event,
      (run marshal evs s).state.clients = s.clients ∧
      (∀ q, ((run marshal evs s).state.heap q).id = (s.heap q).id) ∧
      (∀ r, members s r <+: members (run marshal evs s).state r) ∧
      (∀ r c, c ∈ members s r → c ∈ members (run marshal evs s).state r)) := by
  constructor
  · intro c eventName data
    have hone : (run marshal [Event.mk c eventName data] s).state
        = (HandleEvent marshal s c eventName data).state := by
      simp only [run]
      cases HandleEvent marshal s c eventName data <;> rfl
    rw [← hone]
    exact run_state marshal _ s
  · intro evs
    obtain ⟨h1, h2, h3⟩ := run_state marshal evs s
    exact ⟨h1, h2, h3, fun r c hc => (h3 r).subset hc⟩

/-- C17: a forwarding event (`__ice_candidate`, `__offer`, `__answer`), whatever its
data and whether it returns, panics or waits at its send, leaves the rooms,
`clients`, every id, room field and connection bit unchanged, and the queue of every
client that is not the looked-up target; the queue of the target changes only by one
message appended at its end, which happens when the queue has room, and is unchanged
when it is full. -/
theorem forward_touches_only_target (marshal : JVal → Except String Bytes) (s : State)
    (c : Ptr) (eventName : String) (data : JMap) (hev : IsForwardEvent eventName) :
    (HandleEvent marshal s c eventName data).state.rooms = s.rooms ∧
    (HandleEvent marshal s c eventName data).state.clients = s.clients ∧
    (∀ q, ((HandleEvent marshal s c eventName data).state.heap q).id = (s.heap q).id ∧
      ((HandleEvent marshal s c eventName data).state.heap q).room = (s.heap q).room ∧
      ((HandleEvent marshal s c eventName data).state.heap q).connClosed
        = (s.heap q).connClosed) ∧
    (∀ q, (¬ ∃ t, data "socketId" = some (JVal.str t) ∧ getClient s t = some q) →
      ((HandleEvent marshal s c eventName data).state.heap q).send = (s.heap q).send) ∧
    (∀ t cp, data "socketId" = some (JVal.str t) → getClient s t = some cp →
      ∃ env,
        ((s.heap cp).send.length < sendCap →
          ((HandleEvent marshal s c eventName data).state.heap cp).send
            = (s.heap cp).send ++ [encode marshal env]) ∧
        (¬ (s.heap cp).send.length < sendCap →
          ((HandleEvent marshal s c eventName data).state.heap cp).send
            = (s.heap cp).send)) := by
  obtain ⟨notFound, received, hfw⟩ := handleEvent_forward marshal s c eventName data hev
  rw [hfw]
  cases hd : asString (data "socketId") with
  | none =>
    rw [forward_panic marshal _ notFound received s c data hd]
    refine ⟨rfl, rfl, fun _ => ⟨rfl, rfl, rfl⟩, fun _ _ => rfl, ?_⟩
    intro t cp ht _
    rw [ht] at hd
    simp [asString] at hd
  | some t =>
    have hdt := asString_eq_some _ _ hd
    cases hg : getClient s t with
    | none =>
      rw [forward_missing marshal _ notFound received s c data t hdt hg]
      refine ⟨rfl, rfl, fun _ => ⟨rfl, rfl, rfl⟩, fun _ _ => rfl, ?_⟩
      intro t' cp ht' hg'
      rw [hdt] at ht'
      have htt : t = t' := by
        injection ht' with h
        injection h
      subst htt
      rw [hg] at hg'
      cases hg'
    | some cp =>
      have htarget : ∀ t' cp', data "socketId" = some (JVal.str t') →
          getClient s t' = some cp' → cp' = cp := by
        intro t' cp' ht' hg'
        rw [hdt] at ht'
        have htt : t = t' := by
          injection ht' with h
          injection h
        subst htt
        rw [hg] at hg'
        injection hg' with h
        exact h.symm
      rcases forward_cases marshal (forwardMsg eventName data (s.heap c).id) notFound
        received s c data t cp hdt hg with ⟨hroom, s1, e1, c1, r1, _, h1⟩ |
          ⟨hfull, s1, e1, c1, r1, _, h1⟩
      · rw [e1]
        refine ⟨r1, c1, ?_, ?_, ?_⟩
        · intro q
          show (s1.heap q).id = _ ∧ (s1.heap q).room = _ ∧ (s1.heap q).connClosed = _
          rw [h1 q]
          by_cases hq : q = cp
          · subst hq; simp
          · simp [hq]
        · intro q hq
          show (s1.heap q).send = _
          rw [h1 q]
          have hne : q ≠ cp := by
            intro h
            subst h
            exact hq ⟨t, hdt, hg⟩
          simp [hne]
        · intro t' cp' ht' hg'
          have hcp := htarget t' cp' ht' hg'
          subst hcp
          refine ⟨forwardMsg eventName data (s.heap c).id, ?_, fun h => absurd hroom h⟩
          intro _
          show (s1.heap cp').send = _
          rw [h1 cp']
          simp
      · rw [e1]
        refine ⟨r1, c1, ?_, ?_, ?_⟩
        · intro q
          show (s1.heap q).id = _ ∧ (s1.heap q).room = _ ∧ (s1.heap q).connClosed = _
          rw [h1]
          exact ⟨rfl, rfl, rfl⟩
        · intro q _
          show (s1.heap q).send = _
          rw [h1]
        · intro t' cp' ht' hg'
          have hcp := htarget t' cp' ht' hg'
          subst hcp
          refine ⟨forwardMsg eventName data (s.heap c).id, fun h => absurd h hfull, ?_⟩
          intro _
          show (s1.heap cp').send = _
          rw [h1]

/-- Witness for C17: an offer from client 1 to client 0, seen from client 2. -/
theorem forward_touches_only_target_witness :
    IsForwardEvent "__offer" ∧
    ∀ marshal : JVal → Except String Bytes,
      ((HandleEvent marshal (State.mk [0, 1, 2] (fun _ => none)
          (fun p => Client.mk (toString p) false [] "") [] []) 1 "__offer"
          (mapLit [("socketId", JVal.str "0"), ("sdp", JVal.str "X")])).state.heap 2).send
        = [] :=
  ⟨Or.inr (Or.inl rfl), fun marshal => by
    have h := (forward_touches_only_target marshal
      (State.mk [0, 1, 2] (fun _ => none) (fun p => Client.mk (toString p) false [] "") [] [])
      1 "__offer" (mapLit [("socketId", JVal.str "0"), ("sdp", JVal.str "X")])
      (Or.inr (Or.inl rfl))).2.2.2.1 2
    refine h ?_
    rintro ⟨t, ht, hg⟩
    have ht0 : t = "0" := by
      simp [mapLit, List.lookup] at ht
      exact ht.symm
    subst ht0
    have hg0 : getClient (State.mk [0, 1, 2] (fun _ => none)
        (fun p => Client.mk (toString p) false [] "") [] []) "0" = some 0 := by decide
    rw [hg0] at hg
    exact absurd hg (by decide)⟩

/-- Counterexample to C18: client 0 sends `__join` for the room named by the empty
string; it is then a member of that room with an empty room field. -/
theorem room_field_counterexample :
    ¬ ∃ (marshal : JVal → Except String Bytes) (s : State),
      run marshal [joinEvent "" 0]
        (main (fun p => Client.mk (toString p) false [] "")) = Outcome.ok s ∧
      ∀ c r, c ∈ members s r →
        (s.heap c).room ≠ "" ∧ lastJoin [joinEvent "" 0] c = some (s.heap c).room := by
  rintro ⟨marshal, s, hrun, hall⟩
  obtain ⟨_, _, h3, h4⟩ := run_ok marshal _ _ _ hrun
  have hmem : (0 : Ptr) ∈ members s "" := by
    rw [h3 "", List.mem_append]
    right
    rw [mem_joiners]
    exact ⟨joinEvent "" 0, by simp, rfl, rfl⟩
  have hroom : (s.heap 0).room = "" := by
    rw [h4 0]
    rfl
  exact (hall 0 "" hmem).1 hroom

/-- C18 (amended): in a state reached from the state of `main` with every room field
empty, by a sequence of router events: a client whose room field is a non-empty
name `r` is in the member list of `r`, and a client in some member list has the room
of its most recent join as its room field (empty only when that join named the
empty string). -/
theorem room_field_tracks_last_join (marshal : JVal → Except String Bytes)
    (heap : Ptr → Client) (evs : List Event) (s : State)
    (hinit : ∀ q, (heap q).room = "")
    (hrun : run marshal evs (main heap) = Outcome.ok s) :
    (∀ c r, (s.heap c).room = r → r ≠ "" → c ∈ members s r) ∧
    (∀ c r, c ∈ members s r → lastJoin evs c = some (s.heap c).room) ∧
    (∀ c r, c ∈ members s r → (s.heap c).room = "" → lastJoin evs c = some "") := by
  obtain ⟨_, _, h3, h4⟩ := run_ok marshal evs (main heap) s hrun
  have h0 : ∀ r, members (main heap) r = [] := fun r => by simp [members, main]
  have hroom : ∀ c, (s.heap c).room = (lastJoin evs c).getD "" := by
    intro c
    rw [h4 c]
    show (lastJoin evs c).getD (heap c).room = _
    rw [hinit c]
  have hsecond : ∀ c r, c ∈ members s r → lastJoin evs c = some (s.heap c).room := by
    intro c r hc
    rw [h3 r, h0 r, List.nil_append] at hc
    obtain ⟨r', hr'⟩ := lastJoin_of_mem_joiners c r evs hc
    rw [hroom c, hr']
    rfl
  refine ⟨?_, hsecond, ?_⟩
  · intro c r hr hne
    rw [h3 r, h0 r, List.nil_append]
    apply mem_joiners_of_lastJoin
    rw [hroom c] at hr
    cases hl : lastJoin evs c with
    | none =>
      rw [hl] at hr
      exact absurd hr.symm hne
    | some r' =>
      rw [hl] at hr
      rw [← hr]
      rfl
  · intro c r hc he
    rw [hsecond c r hc, he]

/-- Witness for C18 (amended): client 0 joins `r1` and then `r2`, with an encoder
that encodes every value as the empty message. -/
theorem room_field_tracks_last_join_witness :
    (∀ q : Ptr, (Client.mk (toString q) false [] "").room = "") ∧
    ∃ s, run (fun _ => Except.ok []) [joinEvent "r1" 0, joinEvent "r2" 0]
        (main (fun p => Client.mk (toString p) false [] "")) = Outcome.ok s ∧
      ((0 : Ptr) ∈ members s "r1" →
        lastJoin [joinEvent "r1" 0, joinEvent "r2" 0] 0 = some (s.heap 0).room) :=
  ⟨fun _ => rfl, _, rfl, (room_field_tracks_last_join (fun _ => Except.ok [])
    (fun p => Client.mk (toString p) false [] "") [joinEvent "r1" 0, joinEvent "r2" 0] _
    (fun _ => rfl) rfl).2.1 0 "r1"⟩

/-- Counterexample to C19: in the state `stalled` client 1 sends `__join` for `r1`,
whose two member entries (clients 2 and 0) have ids other than that of client 1. The
join waits at the send to client 0, whose channel is full: for no encoder does it
return, and it enqueues one message, not three. -/
theorem join_send_count_counterexample :
    ¬ ∃ marshal : JVal → Except String Bytes,
      (∃ s', HandleEvent marshal stalled 1 "__join" (mapLit [("room", JVal.str "r1")])
        = Outcome.ok s') ∨
      (HandleEvent marshal stalled 1 "__join"
        (mapLit [("room", JVal.str "r1")])).state.sent.length
          = stalled.sent.length + (((members stalled "r1").filter
            (fun p => decide ((stalled.heap 1).id ≠ (stalled.heap p).id))).length + 1) := by
  rintro ⟨marshal, h⟩
  obtain ⟨s1, e, _, h3, _⟩ := stalled_join marshal
  rw [handleEvent_join, e] at h
  rcases h with ⟨s', h⟩ | h
  · cases h
  · have hs : (Outcome.blocked s1).state.sent = s1.sent := rfl
    have hf : stalled.sent.length + (((members stalled "r1").filter
        (fun p => decide ((stalled.heap 1).id ≠ (stalled.heap p).id))).length + 1) = 3 := by
      decide
    rw [hs, h3, hf] at h
    simp at h

/-- C19 (amended): handling `__join {room: r}` for `c` sends only to prior members of
`r` and to `c`; the record (so the queue) of every other client is unchanged; the
number of sends is at most the number of prior entries of `r` whose id differs from
that of `c`, plus one. It is that number exactly when every client the join sends to
has room in its queue, and then the join returns; otherwise the join waits at a send
and the number is smaller. -/
theorem join_sends_stay_in_room (marshal : JVal → Except String Bytes) (s : State) (c : Ptr)
    (data : JMap) (r : String) (hr : data "room" = some (JVal.str r)) :
    ∃ new, (HandleEvent marshal s c "__join" data).state.sent = s.sent ++ new ∧
      (∀ e ∈ new, e.1 ∈ members s r ∨ e.1 = c) ∧
      (∀ q, q ∉ members s r → q ≠ c →
        (HandleEvent marshal s c "__join" data).state.heap q = s.heap q) ∧
      new.length ≤ ((members s r).filter
        (fun p => decide ((s.heap c).id ≠ (s.heap p).id))).length + 1 ∧
      (JoinHasRoom s c r →
        (∃ s', HandleEvent marshal s c "__join" data = Outcome.ok s') ∧
        new.length = ((members s r).filter
          (fun p => decide ((s.heap c).id ≠ (s.heap p).id))).length + 1) ∧
      (¬ JoinHasRoom s c r →
        (∃ s1, HandleEvent marshal s c "__join" data = Outcome.blocked s1) ∧
        new.length ≤ ((members s r).filter
          (fun p => decide ((s.heap c).id ≠ (s.heap p).id))).length) := by
  obtain ⟨new, h1, h2, h3, h4, h5⟩ := handleJoin_sends marshal s c data r hr
  have hn : ((members s r).filter
      (fun p => decide ((s.heap c).id ≠ (s.heap p).id))).length
        = (notified s c (members s r)).length := by
    simp [notified]
  rw [handleEvent_join, hn]
  refine ⟨new, h1, ?_, h3, ?_, ?_, ?_⟩
  · intro e he
    rcases List.mem_append.mp (h2.subset he) with h | h
    · left
      obtain ⟨p, hp, rfl⟩ := List.mem_map.mp h
      exact (List.mem_filter.mp hp).1
    · right
      simp at h
      rw [h]
  · have := h2.length_le
    simpa using this
  · intro hroom
    have hok := (handleJoin_ok_iff marshal s c data r hr).mpr hroom
    refine ⟨hok, ?_⟩
    rw [h4 hok]
    simp
  · intro hfull
    have hnok : ∀ s', handleJoin marshal s c data ≠ Outcome.ok s' := by
      intro s' e
      exact hfull ((handleJoin_ok_iff marshal s c data r hr).mp ⟨s', e⟩)
    obtain ⟨s1, e1, hlen⟩ := h5 hnok
    exact ⟨⟨s1, e1⟩, hlen⟩

/-- Witness for C19 (amended): client 2 joins `r1` (members 0 and 1) while 3 is in
`r2`, all queues empty. -/
theorem join_sends_stay_in_room_witness :
    mapLit [("room", JVal.str "r1")] "room" = some (JVal.str "r1") ∧
    ∀ marshal : JVal → Except String Bytes,
      ∃ new, (HandleEvent marshal
          (State.mk [0, 1, 2, 3]
            (fun r => if r = "r1" then some [0, 1] else if r = "r2" then some [3] else none)
            (fun p => Client.mk (toString p) false [] "") [] [])
          2 "__join" (mapLit [("room", JVal.str "r1")])).state.sent = new ∧
        new.length = 3 ∧
        ((HandleEvent marshal
          (State.mk [0, 1, 2, 3]
            (fun r => if r = "r1" then some [0, 1] else if r = "r2" then some [3] else none)
            (fun p => Client.mk (toString p) false [] "") [] [])
          2 "__join" (mapLit [("room", JVal.str "r1")])).state.heap 3).send = [] :=
  ⟨by simp [mapLit, List.lookup], fun marshal => by
    obtain ⟨new, h2, _, h4, _, h5, _⟩ := join_sends_stay_in_room marshal
      (State.mk [0, 1, 2, 3]
        (fun r => if r = "r1" then some [0, 1] else if r = "r2" then some [3] else none)
        (fun p => Client.mk (toString p) false [] "") [] [])
      2 (mapLit [("room", JVal.str "r1")]) "r1" (by simp [mapLit, List.lookup])
    have hf : List.filter (fun p : Ptr => decide (toString (2 : Ptr) ≠ toString p)) [0, 1]
        = [0, 1] := by decide
    refine ⟨new, by simpa using h2, ?_, ?_⟩
    · rw [(h5 (joinHasRoom_of_short _ 2 "r1" 0 (fun _ => Nat.le_refl 0) (by decide))).2]
      simp only [members, if_true, Option.getD_some, hf]
      rfl
    · rw [h4 3 (by simp [members]) (by decide)]⟩

/-- Counterexample to C20: in the state `stalled` client 1 sends a message that
decodes to `__offer` with `socketId` `0` and an `sdp`: `eventName` is a string,
`data` an object and `socketId` a string, so none of the four cases applies, yet
the loop body does not return: it waits at the send to client 0, whose channel is
full. -/
theorem inbound_waits_counterexample :
    ¬ ∃ (marshal : JVal → Except String Bytes) (unmarshal : Bytes → Option JMap)
        (message : Bytes),
      unmarshal message = some (mapLit [("eventName", JVal.str "__offer"),
        ("data", JVal.obj (mapLit [("socketId", JVal.str "0"), ("sdp", JVal.str "X")]))]) ∧
      ((∃ s', readPumpBody marshal unmarshal stalled 1 message = Outcome.ok s') ∨
        (∃ s', readPumpBody marshal unmarshal stalled 1 message = Outcome.panic s')) := by
  rintro ⟨marshal, unmarshal, message, hm, h⟩
  obtain ⟨s1, e, _⟩ := stalled_offer marshal
  have hb : readPumpBody marshal unmarshal stalled 1 message = Outcome.blocked s1 := by
    rw [← e]
    unfold readPumpBody
    simp only [hm]
    rfl
  rw [hb] at h
  rcases h with ⟨s', h⟩ | ⟨s', h⟩ <;> cases h

/-- C20 (amended): for a decoded object with an `eventName` key, the loop body of
`readPump` panics exactly when `eventName` is not a string, or `data` is absent or
not an object, or the event is `__join` and `data.room` is not a string, or the
event is `__ice_candidate`, `__offer` or `__answer` and `data.socketId` is not a
string. It returns normally exactly when it does not panic and every send of the
handler finds room in the queue it sends to; in the remaining case it waits at a
send. A panic leaves the state as it was. -/
theorem inbound_panics_exactly (marshal : JVal → Except String Bytes)
    (unmarshal : Bytes → Option JMap) (s : State) (c : Ptr) (message : Bytes) (m : JMap)
    (ev : JVal) (hm : unmarshal message = some m) (hev : m "eventName" = some ev) :
    ((∃ s', readPumpBody marshal unmarshal s c message = Outcome.panic s') ↔
      ((∀ n, ev ≠ JVal.str n) ∨
        (∀ d, m "data" ≠ some (JVal.obj d)) ∨
        (ev = JVal.str "__join" ∧
          ∀ d, m "data" = some (JVal.obj d) → ∀ r, d "room" ≠ some (JVal.str r)) ∨
        ((ev = JVal.str "__ice_candidate" ∨ ev = JVal.str "__offer" ∨
            ev = JVal.str "__answer") ∧
          ∀ d, m "data" = some (JVal.obj d) → ∀ t, d "socketId" ≠ some (JVal.str t)))) ∧
    ((∃ s', readPumpBody marshal unmarshal s c message = Outcome.ok s') ↔
      (¬ ∃ s', readPumpBody marshal unmarshal s c message = Outcome.panic s') ∧
      ∀ name d, ev = JVal.str name → m "data" = some (JVal.obj d) →
        EventHasRoom s c name d) ∧
    (∀ s', readPumpBody marshal unmarshal s c message = Outcome.panic s' → s' = s) := by
  refine ⟨?_, ?_, ?_⟩
  · cases hn : asString (some ev) with
    | none =>
      have hb : readPumpBody marshal unmarshal s c message = Outcome.panic s := by
        unfold readPumpBody
        simp [hm, hev, hn]
      rw [hb]
      constructor
      · intro _
        left
        intro n hne
        rw [hne] at hn
        simp [asString] at hn
      · intro _
        exact ⟨s, rfl⟩
    | some name =>
      have hevn : ev = JVal.str name := by
        have := asString_eq_some _ _ hn
        injection this
      subst hevn
      cases hdm : asMap (m "data") with
      | none =>
        have hb : readPumpBody marshal unmarshal s c message = Outcome.panic s := by
          unfold readPumpBody
          simp [hm, hev, hn, hdm]
        rw [hb]
        constructor
        · intro _
          exact Or.inr (Or.inl ((asMap_eq_none _).mp hdm))
        · intro _
          exact ⟨s, rfl⟩
      | some data =>
        have hdata : m "data" = some (JVal.obj data) := by
          cases hx : m "data" with
          | none => rw [hx] at hdm; simp [asMap] at hdm
          | some v =>
            rw [hx] at hdm
            cases v <;> simp [asMap] at hdm
            rw [hdm]
        have hb : readPumpBody marshal unmarshal s c message
            = HandleEvent marshal s c name data := by
          unfold readPumpBody
          simp [hm, hev, hn, hdm]
        rw [hb, handleEvent_panic_iff]
        constructor
        · rintro (⟨h1, h2⟩ | ⟨h1, h2⟩)
          · right; right; left
            refine ⟨by rw [h1], ?_⟩
            intro d hd r
            rw [hdata] at hd
            have hdd : data = d := by
              injection hd with h
              injection h
            subst hdd
            exact h2 r
          · right; right; right
            refine ⟨?_, ?_⟩
            · rcases h1 with h | h | h
              · exact Or.inl (by rw [h])
              · exact Or.inr (Or.inl (by rw [h]))
              · exact Or.inr (Or.inr (by rw [h]))
            · intro d hd t
              rw [hdata] at hd
              have hdd : data = d := by
                injection hd with h
                injection h
              subst hdd
              exact h2 t
        · rintro (h | h | ⟨h1, h2⟩ | ⟨h1, h2⟩)
          · exact absurd rfl (h name)
          · exact absurd hdata (h data)
          · left
            refine ⟨by injection h1, h2 data hdata⟩
          · right
            refine ⟨?_, h2 data hdata⟩
            rcases h1 with h | h | h
            · exact Or.inl (by injection h)
            · exact Or.inr (Or.inl (by injection h))
            · exact Or.inr (Or.inr (by injection h))
  · cases hn : asString (some ev) with
    | none =>
      have hb : readPumpBody marshal unmarshal s c message = Outcome.panic s := by
        unfold readPumpBody
        simp [hm, hev, hn]
      rw [hb]
      constructor
      · rintro ⟨s', h⟩
        cases h
      · rintro ⟨h, _⟩
        exact absurd ⟨s, rfl⟩ h
    | some name =>
      have hevn : ev = JVal.str name := by
        have := asString_eq_some _ _ hn
        injection this
      subst hevn
      cases hdm : asMap (m "data") with
      | none =>
        have hb : readPumpBody marshal unmarshal s c message = Outcome.panic s := by
          unfold readPumpBody
          simp [hm, hev, hn, hdm]
        rw [hb]
        constructor
        · rintro ⟨s', h⟩
          cases h
        · rintro ⟨h, _⟩
          exact absurd ⟨s, rfl⟩ h
      | some data =>
        have hdata : m "data" = some (JVal.obj data) := by
          cases hx : m "data" with
          | none => rw [hx] at hdm; simp [asMap] at hdm
          | some v =>
            rw [hx] at hdm
            cases v <;> simp [asMap] at hdm
            rw [hdm]
        have hb : readPumpBody marshal unmarshal s c message
            = HandleEvent marshal s c name data := by
          unfold readPumpBody
          simp [hm, hev, hn, hdm]
        rw [hb, handleEvent_ok_iff]
        constructor
        · rintro ⟨h1, h2⟩
          refine ⟨h1, ?_⟩
          intro name' d hname hd
          have hnn : name = name' := by injection hname
          subst hnn
          rw [hdata] at hd
          have hdd : data = d := by
            injection hd with h
            injection h
          subst hdd
          exact h2
        · rintro ⟨h1, h2⟩
          exact ⟨h1, h2 name data rfl hdata⟩
  · intro s' h
    cases hn : asString (some ev) with
    | none =>
      unfold readPumpBody at h
      simp [hm, hev, hn] at h
      exact h.symm
    | some name =>
      cases hdm : asMap (m "data") with
      | none =>
        unfold readPumpBody at h
        simp [hm, hev, hn, hdm] at h
        exact h.symm
      | some data =>
        have hb : readPumpBody marshal unmarshal s c message
            = HandleEvent marshal s c name data := by
          unfold readPumpBody
          simp [hm, hev, hn, hdm]
        rw [hb] at h
        exact handleEvent_panic marshal s s' c name data h

/-- Witness for C20: a `__join` whose data has no `room` key panics. -/
theorem inbound_panics_exactly_witness :
    ((fun _ : Bytes => some (mapLit [("eventName", JVal.str "__join"),
        ("data", JVal.obj (mapLit []))])) [123] =
        some (mapLit [("eventName", JVal.str "__join"), ("data", JVal.obj (mapLit []))]) ∧
      mapLit [("eventName", JVal.str "__join"), ("data", JVal.obj (mapLit []))] "eventName"
        = some (JVal.str "__join")) ∧
    ∀ (marshal : JVal → Except String Bytes) (s : State),
      ∃ s', readPumpBody marshal (fun _ => some (mapLit [("eventName", JVal.str "__join"),
        ("data", JVal.obj (mapLit []))])) s 0 [123] = Outcome.panic s' :=
  ⟨⟨rfl, rfl⟩, fun marshal s =>
    (inbound_panics_exactly marshal (fun _ => some (mapLit [("eventName", JVal.str "__join"),
      ("data", JVal.obj (mapLit []))])) s 0 [123]
      (mapLit [("eventName", JVal.str "__join"), ("data", JVal.obj (mapLit []))])
      (JVal.str "__join") rfl rfl).1.mpr
      (Or.inr (Or.inr (Or.inl ⟨rfl, fun d hd r hr => by
        have hdd : mapLit [] = d := by
          have h0 : mapLit [("eventName", JVal.str "__join"), ("data", JVal.obj (mapLit []))]
              "data" = some (JVal.obj (mapLit [])) := rfl
          rw [h0] at hd
          injection hd with h
          injection h
        subst hdd
        simp [mapLit, List.lookup] at hr⟩)))⟩


end WebrtcServer
